import Mathlib

/-!
# jfa-go, `api.go`: the invite lifecycle

A shallow embedding of the invite handling of `api.go` (`timeDiff`,
`checkInvites`, `checkInvite`, `NewUser`, `GetInvites`) and theorems about it.

* A Go `map[string]T` is an `AList`: a list of entries whose keys are pairwise
  distinct. The order of the entries is the order in which a `range` loop
  visits them (Go leaves that order unspecified, so statements quantify over
  every order).
* `time.Time` is a count of seconds and nanoseconds since the Unix epoch
  together with a `Location`; `time.Now()` is a parameter `current_time`.
* A handler is a function from the application context to the new context;
  the context also records the number of `storeInvites` calls and the
  goroutines started by `go` statements.
-/

namespace Jfa

/-! ## Go values -/

/-- A Go `map[string]β` that is not nil. -/
abbrev GoMap (β : Type) : Type := AList (fun _ : String => β)

/-- Go `m[k]` on a `map[string]bool`: the stored value, or `false`. -/
def GoMap.getBool (m : GoMap Bool) (k : String) : Bool :=
  (m.lookup k).getD false

/-- Go `int` on a 64-bit platform: the value an arithmetic result wraps to. -/
def wrapInt64 (x : Int) : Int :=
  (x + 2 ^ 63) % 2 ^ 64 - 2 ^ 63

/-! ## `time` -/

/-- A `time.Location`: the offset (seconds east of UTC) in force before the
first transition, and the transitions `(when, offset)` in ascending order of
`when` (Unix seconds). A fixed zone has no transition. -/
structure Location where
  name : String
  base : Int
  tx : List (Int × Int)
deriving DecidableEq, Repr

/-- The location `time.UTC`. -/
def UTC : Location := ⟨"UTC", 0, []⟩

/-- The offset `l.lookup(sec)` reports: that of the last transition not after
`sec`. -/
def Location.lookup (l : Location) (sec : Int) : Int :=
  l.tx.foldl (fun off t => if t.1 ≤ sec then t.2 else off) l.base

/-- A `time.Time` without monotonic reading: Unix seconds, nanoseconds within
the second, location. -/
structure Time where
  sec : Int
  nsec : Nat
  loc : Location
deriving DecidableEq, Repr

/-- Go `t.After(u)`. -/
def Time.After (t u : Time) : Bool :=
  decide (t.sec > u.sec) || (decide (t.sec = u.sec) && decide (t.nsec > u.nsec))

/-- Go `t.In(loc)`: the same instant, read in `loc`. -/
def Time.In (t : Time) (loc : Location) : Time :=
  { t with loc := loc }

/-- Go `t.Location()`. -/
def Time.Location (t : Time) : Location := t.loc

/-- The zero `time.Time`: January 1, year 1, 00:00:00 UTC. -/
def Time.zero : Time := ⟨-62135596800, 0, UTC⟩

/-! ### Calendar arithmetic of package `time`

The functions below follow `time.Time.abs`, `absDate`, `absClock`, `norm` and
`time.Date` of the Go standard library. Values of type `uint64` are natural
numbers; a `uint64` result is reduced modulo `2^64` where Go's arithmetic
wraps. -/

def secondsPerMinute : Nat := 60
def secondsPerHour : Nat := 60 * secondsPerMinute
def secondsPerDay : Nat := 24 * secondsPerHour
def daysPer400Years : Nat := 365 * 400 + 97
def daysPer100Years : Nat := 365 * 100 + 24
def daysPer4Years : Nat := 365 * 4 + 1

/-- The year of absolute second 0; it is 1 modulo 400. -/
def absoluteZeroYear : Int := -292277022399

/-- Seconds from the absolute epoch to January 1 of year 1, negated:
`(absoluteZeroYear - internalYear) * 365.2425 * secondsPerDay`. -/
def absoluteToInternal : Int := -9223371966579724800
def internalToAbsolute : Int := -absoluteToInternal

/-- Seconds from January 1 of year 1 to the Unix epoch. -/
def unixToInternal : Int := (1969 * 365 + 1969 / 4 - 1969 / 100 + 1969 / 400) * secondsPerDay
def internalToUnix : Int := -unixToInternal

/-- Go `uint64(x)` of an `int64` (or of an exact integer result). -/
def toUint64 (x : Int) : Nat := (x % 2 ^ 64).toNat

/-- Go `t.abs()`: seconds since the absolute epoch, read in the location of `t`. -/
def Time.abs (t : Time) : Nat :=
  toUint64 (t.sec + t.loc.lookup t.sec + (unixToInternal + internalToAbsolute))

/-- Go `isLeap(year)`; a remainder of Go is zero exactly when `%` is. -/
def isLeap (year : Int) : Bool :=
  year % 4 == 0 && (year % 100 != 0 || year % 400 == 0)

/-- The table `daysBefore`: `daysBefore[m]` is the number of days of a
non-leap year before month `m + 1`. -/
def daysBefore : List Nat := [0, 31, 59, 90, 120, 151, 181, 212, 243, 273, 304, 334, 365]

/-- The first part of `absDate` (up to `if !full`): the year, counted from
`absoluteZeroYear`, and the day within the year, from 0. -/
def absYear (abs : Nat) : Nat × Nat :=
  let d := abs / secondsPerDay
  -- Account for 400 year cycles.
  let n := d / daysPer400Years
  let y := 400 * n
  let d := d - daysPer400Years * n
  -- Cut off 100-year cycles.
  let n := d / daysPer100Years
  let n := n - (n >>> 2)
  let y := y + 100 * n
  let d := d - daysPer100Years * n
  -- Cut off 4-year cycles.
  let n := d / daysPer4Years
  let y := y + 4 * n
  let d := d - daysPer4Years * n
  -- Cut off years within a 4-year cycle.
  let n := d / 365
  let n := n - (n >>> 2)
  let y := y + n
  let d := d - 365 * n
  (y, d)

/-- The second part of `absDate`: month (January is 1) and day of the month
from the day within the year. -/
def absMonthDay (leap : Bool) (yday : Nat) : Nat × Nat :=
  if leap && yday == 31 + 29 - 1 then
    -- Leap day.
    (2, 29)
  else
    let day := if leap && decide (yday > 31 + 29 - 1) then yday - 1 else yday
    -- Estimate month on assumption that every month has 31 days.
    let month := day / 31
    let e := daysBefore.getD (month + 1) 0
    let mb : Nat × Nat :=
      if day ≥ e then (month + 1, e) else (month, daysBefore.getD month 0)
    (mb.1 + 1, day - mb.2 + 1)

/-- Go `absDate(abs, true)`: year, month, day of the month, day of the year. -/
def absDate (abs : Nat) : Int × Int × Int × Int :=
  let yd := absYear abs
  let year : Int := (yd.1 : Int) + absoluteZeroYear
  let md := absMonthDay (isLeap year) yd.2
  (year, (md.1 : Int), (md.2 : Int), (yd.2 : Int))

/-- Go `absClock(abs)`: hour, minute, second. -/
def absClock (abs : Nat) : Int × Int × Int :=
  let sec := abs % secondsPerDay
  let hour := sec / secondsPerHour
  let sec := sec - hour * secondsPerHour
  let min := sec / secondsPerMinute
  let sec := sec - min * secondsPerMinute
  ((hour : Int), (min : Int), (sec : Int))

/-- Go `t.Date()`. -/
def Time.Date (t : Time) : Int × Int × Int :=
  let r := absDate t.abs
  (r.1, r.2.1, r.2.2.1)

/-- Go `t.Clock()`. -/
def Time.Clock (t : Time) : Int × Int × Int :=
  absClock t.abs

/-- Go `t.Day()`. -/
def Time.Day (t : Time) : Int :=
  (absDate t.abs).2.2.1

/-- Go `norm(hi, lo, base)`; both quotients have a non-negative dividend. -/
def norm (hi lo base : Int) : Int × Int :=
  let r : Int × Int :=
    if lo < 0 then
      let n := (-lo - 1) / base + 1
      (hi - n, lo + n * base)
    else (hi, lo)
  if r.2 ≥ base then
    let n := r.2 / base
    (r.1 + n, r.2 - n * base)
  else r

/-- Go `time.Date(year, month, day, hour, min, sec, nsec, time.UTC)`. `UTC`
has offset 0, so the zone adjustment at the end of `time.Date` does nothing.
The sums and products on `uint64` wrap, which amounts to reducing the exact
result modulo `2^64`. -/
def Date (year month day hour min sec nsec : Int) : Time :=
  -- Normalize month, overflowing into year.
  let m := month - 1
  let ym := norm year m 12
  let year := ym.1
  let month := ym.2 + 1
  -- Normalize nsec, sec, min, hour, overflowing into day.
  let sn := norm sec nsec 1000000000
  let ms := norm min sn.1 60
  let hm := norm hour ms.1 60
  let dh := norm day hm.1 24
  let nsec := sn.2
  let sec := ms.2
  let min := hm.2
  let hour := dh.2
  let day := dh.1
  let y := toUint64 (wrapInt64 (year - absoluteZeroYear))
  -- Compute days since the absolute epoch.
  let n := y / 400
  let y := y - 400 * n
  let d := daysPer400Years * n
  let n := y / 100
  let y := y - 100 * n
  let d := d + daysPer100Years * n
  let n := y / 4
  let y := y - 4 * n
  let d := d + daysPer4Years * n
  let n := y
  let d := d + 365 * n
  -- Add in days before this month.
  let d := d + daysBefore.getD (month - 1).toNat 0
  let d := if isLeap year && decide (month ≥ 3) then d + 1 else d
  -- Add in days before today, and the time elapsed today.
  let abs := toUint64 (((d : Int) + (day - 1)) * secondsPerDay
    + (hour * secondsPerHour + min * secondsPerMinute + sec))
  let unix := wrapInt64 (wrapInt64 abs + (absoluteToInternal + internalToUnix))
  ⟨unix, nsec.toNat, UTC⟩

/-- The function `timeDiff(a, b)` of `api.go` (lines 37-81):
`(year, month, day, hour, min, sec)`. Each `if x < 0 { x += k; y-- }` of the
source is the pair of definitions of the new `y` and the new `x`. -/
def timeDiff (a b : Time) : Int × Int × Int × Int × Int × Int :=
  let b := if a.Location ≠ b.Location then b.In a.Location else b
  -- if a.After(b) { a, b = b, a }
  let swap := a.After b
  let a1 := if swap then b else a
  let b1 := if swap then a else b
  let y1 := a1.Date.1
  let M1 := a1.Date.2.1
  let d1 := a1.Date.2.2
  let y2 := b1.Date.1
  let M2 := b1.Date.2.1
  let d2 := b1.Date.2.2
  let h1 := a1.Clock.1
  let m1 := a1.Clock.2.1
  let s1 := a1.Clock.2.2
  let h2 := b1.Clock.1
  let m2 := b1.Clock.2.1
  let s2 := b1.Clock.2.2
  let year := y2 - y1
  let month := M2 - M1
  let day := d2 - d1
  let hour := h2 - h1
  let min := m2 - m1
  let sec := s2 - s1
  -- Normalize negative values
  let min1 := if sec < 0 then min - 1 else min
  let sec1 := if sec < 0 then sec + 60 else sec
  let hour1 := if min1 < 0 then hour - 1 else hour
  let min2 := if min1 < 0 then min1 + 60 else min1
  let day1 := if hour1 < 0 then day - 1 else day
  let hour2 := if hour1 < 0 then hour1 + 24 else hour1
  -- days in month:
  let t := Date y1 M1 32 0 0 0 0
  let month1 := if day1 < 0 then month - 1 else month
  let day2 := if day1 < 0 then day1 + (32 - t.Day) else day1
  let year1 := if month1 < 0 then year - 1 else year
  let month2 := if month1 < 0 then month1 + 12 else month1
  (year1, month2, day2, hour2, min2, sec1)

/-! ### Notions used to state and prove the properties of `timeDiff` -/

/-- Whether year `y`, counted from `absoluteZeroYear`, is a leap year. -/
def leapIdx (y : Nat) : Bool :=
  (y + 1) % 4 == 0 && ((y + 1) % 100 != 0 || (y + 1) % 400 == 0)

/-- Days of year `y`, counted from `absoluteZeroYear`. -/
def yearLen (y : Nat) : Nat := if leapIdx y then 366 else 365

/-- Days from the absolute epoch to January 1 of year `y` (counted from
`absoluteZeroYear`). -/
def daysBeforeYear (y : Nat) : Nat := 365 * y + y / 4 - y / 100 + y / 400

/-- Days of month `m` (January is 1) in a leap or non-leap year. -/
def monthLen (leap : Bool) (m : Nat) : Nat :=
  match m with
  | 2 => if leap then 29 else 28
  | 4 => 30
  | 6 => 30
  | 9 => 30
  | 11 => 30
  | _ => 31

/-- Days of the year before month `m`, as `time.Date` adds them up. -/
def monthStart (leap : Bool) (m : Nat) : Nat :=
  daysBefore.getD (m - 1) 0 + if leap && decide (m ≥ 3) then 1 else 0

/-- Lexicographic order on calendar readings, as a linear condition. -/
def lexLe (y1 M1 d1 h1 m1 s1 y2 M2 d2 h2 m2 s2 : Int) : Prop :=
  y1 < y2 ∨ (y1 = y2 ∧ (M1 < M2 ∨ (M1 = M2 ∧ (d1 < d2 ∨ (d1 = d2 ∧
    (h1 < h2 ∨ (h1 = h2 ∧ (m1 < m2 ∨ (m1 = m2 ∧ s1 ≤ s2)))))))))

/-- The borrow pass of `timeDiff` (lines 57-79) on the six differences, with
`dim` for `32 - t.Day()`. -/
def borrowPass (year month day hour min sec dim : Int) : Int × Int × Int × Int × Int × Int :=
  let min1 := if sec < 0 then min - 1 else min
  let sec1 := if sec < 0 then sec + 60 else sec
  let hour1 := if min1 < 0 then hour - 1 else hour
  let min2 := if min1 < 0 then min1 + 60 else min1
  let day1 := if hour1 < 0 then day - 1 else day
  let hour2 := if hour1 < 0 then hour1 + 24 else hour1
  let month1 := if day1 < 0 then month - 1 else month
  let day2 := if day1 < 0 then day1 + dim else day1
  let year1 := if month1 < 0 then year - 1 else year
  let month2 := if month1 < 0 then month1 + 12 else month1
  (year1, month2, day2, hour2, min2, sec1)

/-- The earlier of `a` and `b` read in the location of `a`: the `a` of
`timeDiff` after the exchange. -/
def earlier (a b : Time) : Time :=
  if a.After (b.In a.Location) then b.In a.Location else a

/-- The later of `a` and `b` read in the location of `a`: the `b` of
`timeDiff` after the exchange. -/
def later (a b : Time) : Time :=
  if a.After (b.In a.Location) then a else b.In a.Location

/-- The instants whose second count in their location, from the absolute
epoch of package `time`, is not negative and whose local Unix second count
fits an `int64`: on these `abs` does not wrap. -/
def Time.inRange (t : Time) : Bool :=
  decide (0 ≤ t.sec + t.loc.lookup t.sec + (unixToInternal + internalToAbsolute)) &&
    decide (t.sec + t.loc.lookup t.sec < 2 ^ 63)

/-! ## The invite store -/

/-- Modelled from the spec: the `Invite` record, whose declaration is not in
`api.go`; the fields are those `api.go` reads and writes. `Notify` is `none`
for a nil map. -/
structure Invite where
  Created : Time
  NoLimit : Bool
  RemainingUses : Int
  ValidTill : Time
  Email : String
  UsedBy : List (List String)
  Notify : Option (GoMap (GoMap Bool))
  Profile : String
deriving DecidableEq

/-- The zero `Invite`, which Go returns for a key that is not in the map. -/
def Invite.zero : Invite :=
  { Created := Time.zero, NoLimit := false, RemainingUses := 0, ValidTill := Time.zero,
    Email := "", UsedBy := [], Notify := none, Profile := "" }

/-- A goroutine started by a `go` statement, recorded with the values its free
variables hold at the `go` statement. What the goroutine reads from them when
it runs is not part of this record (see `loopAddress`). -/
inductive Task where
  | expiry (code : String) (address : String)
  | created (code : String) (username : String) (address : String)
deriving DecidableEq, Repr

/-- Go `len(m)` on a map that may be nil. -/
def mapLen {β : Type} (m : Option (GoMap β)) : Nat :=
  match m with
  | none => 0
  | some m => m.entries.length

/-- The `(key, value)` pairs a `range` over a map that may be nil visits. -/
def mapRange {β : Type} (m : Option (GoMap β)) : List (String × β) :=
  match m with
  | none => []
  | some m => m.entries.map (fun e => (e.1, e.2))

/-- Modelled from the spec: a provisioning template of `app.storage.profiles`
(declared outside `api.go`); its three parts are kept as string maps. -/
structure Profile where
  Policy : GoMap String
  Configuration : GoMap String
  Displayprefs : GoMap String
deriving DecidableEq

/-- Modelled from the spec: `app.storage` (declared outside `api.go`).
`invites` is the in-memory map, `invite_path` the collection last written to
durable storage; `emails` maps an account id to nil (`none`) or an address,
and `emails_path` is the email directory last written to durable storage. -/
structure Storage where
  invites : GoMap Invite
  invite_path : GoMap Invite
  profiles : GoMap Profile
  emails : GoMap (Option String)
  emails_path : GoMap (Option String)
deriving DecidableEq

/-- The configuration keys the invite handlers of `api.go` read:
`notifications.enabled`, `invite_emails.enabled`, `password_resets.enabled`,
`ui.jellyfin_login`, `ui.email` (`MustBool(false)` already applied). -/
structure Config where
  notifications_enabled : Bool
  invite_emails_enabled : Bool
  password_resets_enabled : Bool
  ui_jellyfin_login : Bool
  ui_email : String
deriving DecidableEq, Repr

/-- The application context. `strftime` is the external `strtime.Strftime`;
`stored` counts the `storeInvites` calls made so far and `started` lists the
goroutines started so far, oldest first. -/
structure appContext where
  storage : Storage
  config : Config
  datePattern : String
  timePattern : String
  strftime : Time → String → String
  stored : Nat
  started : List Task

namespace appContext

/-- `app.prettyTime(dt)`. -/
def prettyTime (app : appContext) (dt : Time) : String × String :=
  (app.strftime dt app.datePattern, app.strftime dt app.timePattern)

/-- `app.formatDatetime(dt)`. -/
def formatDatetime (app : appContext) (dt : Time) : String :=
  let (d, t) := app.prettyTime dt
  d ++ " " ++ t

/-- Modelled from the spec: `app.storage.loadInvites()` (defined outside
`api.go`) reloads the store: the in-memory map becomes the persisted
collection. -/
def loadInvites (app : appContext) : appContext :=
  { app with storage := { app.storage with invites := app.storage.invite_path } }

/-- Modelled from the spec: `app.storage.storeInvites()` (defined outside
`api.go`) writes the whole in-memory map to durable storage. -/
def storeInvites (app : appContext) : appContext :=
  { app with
    storage := { app.storage with invite_path := app.storage.invites }
    stored := app.stored + 1 }

/-- Go `delete(app.storage.invites, code)`. -/
def deleteInvite (app : appContext) (code : String) : appContext :=
  { app with storage := { app.storage with invites := app.storage.invites.erase code } }

/-- Go `app.storage.invites[code] = inv`. -/
def setInvite (app : appContext) (code : String) (inv : Invite) : appContext :=
  { app with storage := { app.storage with invites := app.storage.invites.insert code inv } }

/-- The `go` statements a loop executed, in order. -/
def go (app : appContext) (ts : List Task) : appContext :=
  { app with started := app.started ++ ts }

/-- The loop `for address, settings := range notify` of `checkInvites` and
`checkInvite`: one goroutine per entry whose `settings["notify-expiry"]` is
true. -/
def expiryLoop (code : String) (notify : Option (GoMap (GoMap Bool))) : List Task :=
  (mapRange notify).filterMap (fun p =>
    if p.2.getBool "notify-expiry" then some (Task.expiry code p.1) else none)

/-- The body run for an expired invite, shared by `checkInvites` and
`checkInvite` (lines 90-112 and 127-150): notify, then delete the code. -/
def expire (app : appContext) (code : String) (data : Invite) : appContext :=
  let notify := data.Notify
  let app :=
    if app.config.notifications_enabled && mapLen notify != 0 then
      app.go (expiryLoop code notify)
    else app
  app.deleteInvite code

/-- `app.checkInvite(code, used, username)` at the instant `current_time`:
the returned `match` and the context afterwards. -/
def checkInvite (app : appContext) (current_time : Time) (code : String) (used : Bool)
    (username : String) : Bool × appContext :=
  let app := app.loadInvites
  match app.storage.invites.lookup code with
  | some inv =>
    let expiry := inv.ValidTill
    if current_time.After expiry then
      -- changed = true, match = false
      let app := app.expire code inv
      (false, app.storeInvites)
    else if used then
      -- changed = true
      let newInv := inv
      let del := newInv.RemainingUses == 1
      let app := if del then app.deleteInvite code else app
      let newInv :=
        if del then newInv
        else if newInv.RemainingUses != 0 then
          { newInv with RemainingUses := wrapInt64 (newInv.RemainingUses - 1) }
        else newInv
      let newInv :=
        { newInv with UsedBy := newInv.UsedBy ++ [[username, app.formatDatetime current_time]] }
      let app := if !del then app.setInvite code newInv else app
      (true, app.storeInvites)
    else
      (true, app)
  | none => (false, app)

/-- The invite `checkInvite` writes back after a use that is not the last
(lines 158-164): one use fewer unless `RemainingUses` is 0, and one more
`UsedBy` entry. -/
def consumed (app : appContext) (now : Time) (username : String) (inv : Invite) : Invite :=
  { inv with
    RemainingUses :=
      if inv.RemainingUses != 0 then wrapInt64 (inv.RemainingUses - 1) else inv.RemainingUses
    UsedBy := inv.UsedBy ++ [[username, app.formatDatetime now]] }

/-- Successive consuming calls `checkInvite(code, true, username)`, one per
`(instant, username)` of the list: the results in order, and the context after
the last call. -/
def checkInviteSeq (app : appContext) (code : String) :
    List (Time × String) → List Bool × appContext
  | [] => ([], app)
  | c :: rest =>
    let r := app.checkInvite c.1 code true c.2
    let rs := checkInviteSeq r.2 code rest
    (r.1 :: rs.1, rs.2)

/-- Modelled from the spec: `app.storage.loadEmails()` (defined outside
`api.go`) reloads the email directory. -/
def loadEmails (app : appContext) : appContext :=
  { app with storage := { app.storage with emails := app.storage.emails_path } }

/-- Modelled from the spec: `app.storage.storeEmails()` (defined outside
`api.go`) writes the email directory to durable storage. -/
def storeEmails (app : appContext) : appContext :=
  { app with storage := { app.storage with emails_path := app.storage.emails } }

/-- One iteration of the loop of `app.checkInvites()` (lines 88-113) on the
pair `(context, changed)`. -/
def checkInvitesStep (current_time : Time) (st : appContext × Bool)
    (e : Sigma (fun _ : String => Invite)) : appContext × Bool :=
  let code := e.1
  let data := e.2
  let expiry := data.ValidTill
  if current_time.After expiry then
    (st.1.expire code data, true)
  else st

/-- `app.checkInvites()` at the instant `current_time`. The loop visits the
entries the map holds when it starts; it deletes none but the one it is on. -/
def checkInvites (app : appContext) (current_time : Time) : appContext :=
  let app := app.loadInvites
  let r := app.storage.invites.entries.foldl (checkInvitesStep current_time) (app, false)
  if r.2 then r.1.storeInvites else r.1

/-- The loop `for address, settings := range invite.Notify` of `NewUser`
(lines 277-292): one goroutine per entry whose `settings["notify-creation"]`
is true. -/
def createdLoop (code username : String) (notify : Option (GoMap (GoMap Bool))) : List Task :=
  (mapRange notify).filterMap (fun p =>
    if p.2.getBool "notify-creation" then some (Task.created code username p.1) else none)

end appContext

/-- The body of `NewUser`'s requests. -/
structure newUserReq where
  Username : String
  Password : String
  Email : String
  Code : String
deriving DecidableEq, Repr

/-- What the external collaborators answer during one `NewUser` request:
`app.validator.validate`, whether `app.jf.userByName` finds a user, and the
`Id`, status and error flag `app.jf.newUser` returns. -/
structure Collaborators where
  validate : String → List (String × Bool)
  userByName : String → Bool
  newUser : String → String → Option String × Nat × Bool

/-- The entry of one invite in the answer of `GetInvites`; an absent key of
the source's `map[string]interface{}` is `none`. -/
structure inviteEntry where
  code : String
  days : Int
  hours : Int
  minutes : Int
  created : String
  profile : String
  usedBy : Option (List (List String))
  noLimit : Option Bool
  remainingUses : Int
  email : Option String
  notifyExpiry : Option Bool
  notifyCreation : Option Bool
deriving DecidableEq

/-- The answer a handler writes with `gc.JSON` or `respond`. -/
inductive Response where
  | success (status : Nat) (ok : Bool)
  | message (status : Nat) (msg : String)
  | validation (status : Nat) (validation : List (String × Bool))
  | invites (status : Nat) (profiles : List String) (invites : List inviteEntry)
deriving DecidableEq

namespace appContext

/-- `app.NewUser(gc)`; `t1` and `t2` are the instants of its two `checkInvite`
calls. Calls to the account-provisioning and Ombi collaborators after the
account is created (policy, configuration, display preferences) change
nothing of this context and are left out. -/
def NewUser (app : appContext) (t1 t2 : Time) (req : newUserReq) (ext : Collaborators) :
    Response × appContext :=
  let r := app.checkInvite t1 req.Code false ""
  let app := r.2
  if !r.1 then (Response.success 401 false, app)
  else
    let validation := ext.validate req.Password
    let valid := validation.all (fun v => v.2)
    if !valid then (Response.validation 200 validation, app)
    else if ext.userByName req.Username then
      (Response.message 401 ("User already exists named " ++ req.Username), app)
    else
      let created := ext.newUser req.Username req.Password
      let status := created.2.1
      if !(status == 200 || status == 204) || created.2.2 then
        (Response.message 401 "Unknown error", app)
      else
        let app := (app.checkInvite t2 req.Code true req.Username).2
        let invite := (app.storage.invites.lookup req.Code).getD Invite.zero
        let app :=
          if app.config.notifications_enabled then
            app.go (createdLoop req.Code req.Username invite.Notify)
          else app
        let id := created.1.getD ""
        let app :=
          if app.config.password_resets_enabled then
            ({ app with storage :=
                { app.storage with emails := app.storage.emails.insert id (some req.Email) } }
              ).storeEmails
          else app
        (Response.validation 200 validation, app)

/-- The address whose notification flags `GetInvites` shows (lines 502-510),
and the context after the `loadEmails` call on the way. -/
def notifyAddress (app : appContext) (jfId : String) : String × appContext :=
  if app.config.ui_jellyfin_login then
    let app := app.loadEmails
    (((app.storage.emails.lookup jfId).getD none).getD "", app)
  else
    (app.config.ui_email, app)

/-- The flag `invite[notifyType]` as `GetInvites` copies it (lines 511-517). -/
def notifyFlag (notify : Option (GoMap (GoMap Bool))) (address notifyType : String) :
    Option Bool :=
  match notify with
  | none => none
  | some m =>
    match m.lookup address with
    | none => none
    | some settings => settings.lookup notifyType

/-- One iteration of the loop of `GetInvites` (lines 479-519) on the pair
`(context, invites)`. -/
def getInvitesStep (current_time : Time) (jfId : String)
    (st : appContext × List inviteEntry) (e : Sigma (fun _ : String => Invite)) :
    appContext × List inviteEntry :=
  let app := st.1
  let code := e.1
  let inv := e.2
  let d := timeDiff inv.ValidTill current_time
  let addr : String × appContext :=
    if mapLen inv.Notify != 0 then app.notifyAddress jfId else ("", app)
  let shown : Bool := mapLen inv.Notify != 0
  let invite : inviteEntry :=
    { code := code
      days := d.2.2.1
      hours := d.2.2.2.1
      minutes := d.2.2.2.2.1
      created := app.formatDatetime inv.Created
      profile := inv.Profile
      usedBy := if inv.UsedBy.length != 0 then some inv.UsedBy else none
      noLimit := if inv.NoLimit then some true else none
      remainingUses := if inv.RemainingUses != 0 then inv.RemainingUses else 1
      email := if inv.Email != "" then some inv.Email else none
      notifyExpiry := if shown then notifyFlag inv.Notify addr.1 "notify-expiry" else none
      notifyCreation := if shown then notifyFlag inv.Notify addr.1 "notify-creation" else none }
  (addr.2, st.2 ++ [invite])

/-- `app.GetInvites(gc)`: `current_time` is the instant read at line 474,
`sweep_time` the one `checkInvites` reads, `jfId` is `gc.GetString("jfId")`. -/
def GetInvites (app : appContext) (current_time sweep_time : Time) (jfId : String) :
    Response × appContext :=
  let app := app.loadInvites
  let app := app.checkInvites sweep_time
  let r := app.storage.invites.entries.foldl (getInvitesStep current_time jfId) (app, [])
  let profiles := app.storage.profiles.keys
  (Response.invites 200 profiles r.2, r.1)

/-- The codes listed in an answer of `GetInvites`. -/
def listedCodes (r : Response) : List String :=
  match r with
  | Response.invites _ _ invites => invites.map (fun i => i.code)
  | _ => []

end appContext

/-! ## The other invite handlers and `DeleteUser` -/

/-- The zone period `l.lookup(sec)` reports begins at the last transition not
after `sec`, or at the least `int64`. -/
def Location.lookupStart (l : Location) (sec : Int) : Int :=
  l.tx.foldl (fun s t => if t.1 ≤ sec then t.1 else s) (-2 ^ 63)

/-- The zone period `l.lookup(sec)` reports ends at the first transition
after `sec`, or at the greatest `int64`. -/
def Location.lookupEnd (l : Location) (sec : Int) : Int :=
  ((l.tx.find? (fun t => decide (sec < t.1))).map (fun t => t.1)).getD (2 ^ 63 - 1)

/-- Go `time.Date(year, month, day, hour, min, sec, nsec, loc)`: the UTC
computation of `Date`, then the zone adjustment of `time.Date`. -/
def DateIn (year month day hour min sec nsec : Int) (loc : Location) : Time :=
  let t := Date year month day hour min sec nsec
  let unix := t.sec
  let offset := loc.lookup unix
  let unix :=
    if offset != 0 then
      let utc := unix - offset
      let offset :=
        if utc < loc.lookupStart unix then loc.lookup (loc.lookupStart unix - 1)
        else if utc ≥ loc.lookupEnd unix then loc.lookup (loc.lookupEnd unix)
        else offset
      wrapInt64 (unix - offset)
    else unix
  ⟨unix, t.nsec, loc⟩

/-- Go `t.AddDate(years, months, days)`. -/
def Time.AddDate (t : Time) (years months days : Int) : Time :=
  DateIn (t.Date.1 + years) (t.Date.2.1 + months) (t.Date.2.2 + days)
    t.Clock.1 t.Clock.2.1 t.Clock.2.2 t.nsec t.Location

/-- Go `t.Add(d)` for a duration `d` in nanoseconds; `/` and `%` of Go
truncate. The sum of the seconds is not reduced to an `int64`. -/
def Time.Add (t : Time) (d : Int) : Time :=
  let dsec := Int.tdiv d 1000000000
  let nsec := (t.nsec : Int) + Int.tmod d 1000000000
  let r : Int × Int :=
    if nsec ≥ 1000000000 then (dsec + 1, nsec - 1000000000)
    else if nsec < 0 then (dsec - 1, nsec + 1000000000)
    else (dsec, nsec)
  { t with sec := t.sec + r.1, nsec := r.2.toNat }

/-- The body of `GenerateInvite`'s requests. -/
structure generateInviteReq where
  Days : Int
  Hours : Int
  Minutes : Int
  Email : String
  MultipleUses : Bool
  NoLimit : Bool
  RemainingUses : Int
  Profile : String
deriving DecidableEq, Repr

/-- The body of `SetProfile`'s requests. -/
structure profileReq where
  Invite : String
  Profile : String
deriving DecidableEq, Repr

/-- The body of `DeleteInvite`'s requests. -/
structure deleteReq where
  Code : String
deriving DecidableEq, Repr

/-- The body of `DeleteUser`'s requests. -/
structure deleteUserReq where
  Users : List String
  Notify : Bool
  Reason : String
deriving DecidableEq, Repr

/-- The loop of lines 404-409 on the successive results of `shortuuid.New()`:
the first one that does not begin with a digit. The result is `none` when the
listed results are used up before one is found, and when an empty result makes
`invite_code[0]` panic. -/
def inviteCode : List String → Option String
  | [] => none
  | s :: rest =>
    match s.data with
    | [] => none
    | c :: _ => if c.isDigit then inviteCode rest else some s

namespace appContext

/-- `app.GenerateInvite(gc)` at the instant `current_time`. `draws` lists the
successive results of `shortuuid.New()`, and `mailed` says whether
`constructInvite` and `send` both succeed; the result is `none` when the loop
choosing the code does not end within `draws`. -/
def GenerateInvite (app : appContext) (current_time : Time) (req : generateInviteReq)
    (draws : List String) (mailed : Bool) : Option (Response × appContext) :=
  let app := app.loadInvites
  let valid_till := current_time.AddDate 0 0 req.Days
  let valid_till := valid_till.Add
    (wrapInt64 (wrapInt64 (3600000000000 * req.Hours) + wrapInt64 (60000000000 * req.Minutes)))
  -- make sure code doesn't begin with number
  match inviteCode draws with
  | none => none
  | some invite_code =>
    let invite := Invite.zero
    let invite := { invite with Created := current_time }
    let invite :=
      if req.MultipleUses then
        if req.NoLimit then { invite with NoLimit := true }
        else { invite with RemainingUses := req.RemainingUses }
      else { invite with RemainingUses := 1 }
    let invite := { invite with ValidTill := valid_till }
    let invite :=
      if req.Email != "" && app.config.invite_emails_enabled then
        if mailed then { invite with Email := req.Email }
        else { invite with Email := "Failed to send to " ++ req.Email }
      else invite
    let invite :=
      if req.Profile != "" then
        if (app.storage.profiles.lookup req.Profile).isSome then
          { invite with Profile := req.Profile }
        else { invite with Profile := "Default" }
      else invite
    let app := app.setInvite invite_code invite
    let app := app.storeInvites
    some (Response.success 200 true, app)

/-- `app.SetProfile(gc)`. The handler does not reload the store. -/
def SetProfile (app : appContext) (req : profileReq) : Response × appContext :=
  -- "" means "Don't apply profile"
  if (app.storage.profiles.lookup req.Profile).isNone && req.Profile != "" then
    (Response.message 500 "Profile not found", app)
  else
    let inv := (app.storage.invites.lookup req.Invite).getD Invite.zero
    let inv := { inv with Profile := req.Profile }
    let app := app.setInvite req.Invite inv
    let app := app.storeInvites
    (Response.success 200 true, app)

/-- `app.DeleteInvite(gc)`. The handler does not reload the store. -/
def DeleteInvite (app : appContext) (req : deleteReq) : Response × appContext :=
  if (app.storage.invites.lookup req.Code).isSome then
    let app := app.deleteInvite req.Code
    let app := app.storeInvites
    (Response.success 200 true, app)
  else
    (Response.message 401 "Code doesn't exist", app)

/-- One of the two flag updates of `SetNotify` (lines 571-575 and 576-580) on
the pair (the flags of the address, whether this iteration wrote a flag). -/
def setNotifyFlag (settings : GoMap Bool) (key : String) (st : GoMap Bool × Bool) :
    GoMap Bool × Bool :=
  if (settings.lookup key).isSome && st.1.getBool key != settings.getBool key then
    (st.1.insert key (settings.getBool key), true)
  else st

/-- The address `SetNotify` acts for (lines 549-562): `none` when
`ui.jellyfin_login` is set and the email directory holds no string for
`jfId`. -/
def setNotifyAddress (app : appContext) (jfId : String) : Option String :=
  if app.config.ui_jellyfin_login then
    (app.storage.emails.lookup jfId).getD none
  else some app.config.ui_email

/-- The loop of `SetNotify` (lines 538-584) on the entries of the request,
from the pair (context, `changed`): the answer written if the loop returns
early, the context and `changed` afterwards.

`invite` is a copy of the stored struct, but a Go map is a reference: when the
stored `Notify` is not nil, `invite.Notify` is the stored map itself, and the
insertion of line 567 is made in the store whether or not line 582 is
reached. When the stored `Notify` is nil, line 564 makes a new map that only
`invite` holds. -/
def setNotifyLoop (jfId : String) :
    List (Sigma (fun _ : String => GoMap Bool)) → appContext × Bool →
      Option Response × appContext × Bool
  | [], st => (none, st)
  | e :: rest, st =>
    let code := e.1
    let settings := e.2
    let changed := st.2
    let app := st.1.loadInvites
    let app := app.loadEmails
    match app.storage.invites.lookup code with
    | none => (some (Response.message 400 "Invalid invite code"), app, changed)
    | some invite =>
      match app.setNotifyAddress jfId with
      | none => (some (Response.message 500 "Missing user email"), app, changed)
      | some address =>
        let notify0 := invite.Notify.getD ∅
        let present := (notify0.lookup address).isSome
        let notify1 := if present then notify0 else notify0.insert address ∅
        let flags0 := (notify1.lookup address).getD ∅
        let r1 := setNotifyFlag settings "notify-expiry" (flags0, false)
        let r2 := setNotifyFlag settings "notify-creation" r1
        let notify2 := if r2.2 then notify1.insert address r2.1 else notify1
        let changed := changed || r2.2
        let invite2 := { invite with Notify := some notify2 }
        let app :=
          if changed then app.setInvite code invite2
          else if invite.Notify.isSome && !present then app.setInvite code invite2
          else app
        setNotifyLoop jfId rest (app, changed)

/-- `app.SetNotify(gc)`: `req` is the request body, `jfId` is
`gc.GetString("jfId")`. The answer is `none` when the handler writes none. -/
def SetNotify (app : appContext) (req : GoMap (GoMap Bool)) (jfId : String) :
    Option Response × appContext :=
  let r := setNotifyLoop jfId req.entries (app, false)
  match r.1 with
  | some resp => (some resp, r.2.1)
  | none =>
    if r.2.2 then (none, r.2.1.storeInvites) else (none, r.2.1)

end appContext

/-- What `app.jf.deleteUser` answers for a user id: the status and the error,
if any. -/
abbrev DeleteUserFn : Type := String → Nat × Option String

/-- What `DeleteUser` writes as its answer. -/
inductive deleteUserAnswer where
  | failed
  | errors (errors : List (String × String))
  | success
deriving DecidableEq, Repr

/-- The outcome of one `DeleteUser` request: the answer written, whether the
handler then panicked with an index out of range, and the arguments
`(userID, reason, address)` of the goroutines it started. -/
structure deleteUserResult where
  answer : deleteUserAnswer
  panicked : Bool
  mails : List (String × String × String)
deriving DecidableEq, Repr

namespace appContext

/-- One iteration of the loop of `DeleteUser` (lines 349-371) on the pair
(`errors`, goroutines started). -/
def deleteUserStep (app : appContext) (req : deleteUserReq) (deleteUser : DeleteUserFn)
    (st : GoMap String × List (String × String × String)) (userID : String) :
    GoMap String × List (String × String × String) :=
  let r := deleteUser userID
  let status := r.1
  let errors :=
    if !(status == 200 || status == 204) || r.2.isSome then
      st.1.insert userID (toString status ++ ": " ++ r.2.getD "%!s(<nil>)")
    else st.1
  let mails :=
    if req.Notify then
      match (app.storage.emails.lookup userID).getD none with
      | some addr => st.2 ++ [(userID, req.Reason, addr)]
      | none => st.2
    else st.2
  (errors, mails)

/-- `app.DeleteUser(gc)`. After `respond(500, "Failed", gc)` line 375 reads
`req.Users[0]`, which panics with an index out of range when `req.Users` has
no element 0. -/
def DeleteUser (app : appContext) (req : deleteUserReq) (deleteUser : DeleteUserFn) :
    deleteUserResult :=
  let r := req.Users.foldl (app.deleteUserStep req deleteUser) (∅, [])
  let errors := r.1
  if errors.entries.length == req.Users.length then
    match req.Users[0]? with
    | none => { answer := deleteUserAnswer.failed, panicked := true, mails := r.2 }
    | some _ => { answer := deleteUserAnswer.failed, panicked := false, mails := r.2 }
  else if errors.entries.length != 0 then
    { answer := deleteUserAnswer.errors (errors.entries.map (fun e => (e.1, e.2)))
      panicked := false
      mails := r.2 }
  else
    { answer := deleteUserAnswer.success, panicked := false, mails := r.2 }

end appContext

/-! ## Notions used to state the properties of the sweep -/

open appContext

/-- An entry of the store is expired at `now`. -/
def expiredAt (now : Time) (e : Sigma (fun _ : String => Invite)) : Bool :=
  now.After e.2.ValidTill

/-- The goroutines `expire` starts for one invite. -/
def expiryTasks (enabled : Bool) (code : String) (data : Invite) : List Task :=
  if enabled && mapLen data.Notify != 0 then expiryLoop code data.Notify else []

/-- The loop of `checkInvites` as a whole. -/
def sweepLoop (now : Time) (st : appContext × Bool)
    (l : List (Sigma (fun _ : String => Invite))) : appContext × Bool :=
  l.foldl (checkInvitesStep now) st

/-- The goroutines the loop of `checkInvites` starts on the entries `l`. -/
def sweepTasks (enabled : Bool) (now : Time) (l : List (Sigma (fun _ : String => Invite))) :
    List Task :=
  l.flatMap (fun e => if now.After e.2.ValidTill then expiryTasks enabled e.1 e.2 else [])

/-- Go `notify[address][key]` on a `map[string]map[string]bool` that may be
nil: false when either key is absent. -/
def notifyGet (notify : Option (GoMap (GoMap Bool))) (address key : String) : Bool :=
  match notify with
  | none => false
  | some m =>
    match m.lookup address with
    | none => false
    | some settings => settings.getBool key

/-- The value of the loop variable `address` of a `range` over `notify` once
the loop has begun its iteration number `k` (from 0) or, when it has no such
iteration, has ended. Before Go 1.22 all iterations share this one variable,
and the function literals of lines 96, 133 and 279 refer to it rather than
take the address as an argument (as the one of `DeleteUser`, line 357, does):
what a goroutine passes to `app.email.send` is the value the variable holds
when the goroutine gets there. -/
def loopAddress (notify : Option (GoMap (GoMap Bool))) (k : Nat) : Option String :=
  let keys := (mapRange notify).map Prod.fst
  keys[min k (keys.length - 1)]?

/-! ## Notions used to state the invariant of the store -/

/-- An invite whose `RemainingUses` is a Go `int` and that is not the pair
`RemainingUses == 0`, `NoLimit == false`. -/
def goodInvite (inv : Invite) : Prop :=
  -2 ^ 63 ≤ inv.RemainingUses ∧ inv.RemainingUses < 2 ^ 63 ∧
    ¬ (inv.RemainingUses = 0 ∧ inv.NoLimit = false)

/-- Every invite of the map is a `goodInvite`. -/
def goodStore (m : GoMap Invite) : Prop :=
  ∀ c inv, m.lookup c = some inv → goodInvite inv

/-- Both the in-memory map and the persisted collection are a `goodStore`. -/
def goodContext (app : appContext) : Prop :=
  goodStore app.storage.invites ∧ goodStore app.storage.invite_path

/-- The invite `GenerateInvite` builds (lines 410-444). -/
def generatedInvite (app : appContext) (current_time : Time) (req : generateInviteReq)
    (mailed : Bool) : Invite :=
  { Created := current_time
    NoLimit := req.MultipleUses && req.NoLimit
    RemainingUses :=
      if req.MultipleUses then (if req.NoLimit then 0 else req.RemainingUses) else 1
    ValidTill := (current_time.AddDate 0 0 req.Days).Add
      (wrapInt64 (wrapInt64 (3600000000000 * req.Hours) + wrapInt64 (60000000000 * req.Minutes)))
    Email :=
      if req.Email != "" && app.config.invite_emails_enabled then
        (if mailed then req.Email else "Failed to send to " ++ req.Email)
      else ""
    UsedBy := []
    Notify := none
    Profile :=
      if req.Profile != "" then
        (if (app.storage.profiles.lookup req.Profile).isSome then req.Profile else "Default")
      else "" }

/-- A request of `GenerateInvite` whose numeric fields are Go `int`s that are
not negative, and that asks for at least one use when it asks for a counted
multiple-use invite. -/
def admissible (req : generateInviteReq) : Prop :=
  0 ≤ req.Days ∧ req.Days < 2 ^ 63 ∧ 0 ≤ req.Hours ∧ req.Hours < 2 ^ 63 ∧
  0 ≤ req.Minutes ∧ req.Minutes < 2 ^ 63 ∧
  0 ≤ req.RemainingUses ∧ req.RemainingUses < 2 ^ 63 ∧
  (req.MultipleUses = true → req.NoLimit = false → req.RemainingUses ≠ 0)

/-- One call of a function that writes the invite store: `GenerateInvite` on
an `admissible` request, `checkInvite`, `checkInvites`, `SetProfile` on a code
the in-memory map holds, `SetNotify`, `DeleteInvite`. -/
inductive Step : appContext → appContext → Prop where
  | generate (app : appContext) (now : Time) (req : generateInviteReq) (draws : List String)
      (mailed : Bool) (r : Response × appContext) :
      admissible req → app.GenerateInvite now req draws mailed = some r → Step app r.2
  | check (app : appContext) (now : Time) (code : String) (used : Bool) (username : String) :
      Step app (app.checkInvite now code used username).2
  | sweep (app : appContext) (now : Time) : Step app (app.checkInvites now)
  | profile (app : appContext) (req : profileReq) :
      (app.storage.invites.lookup req.Invite).isSome = true → Step app (app.SetProfile req).2
  | notify (app : appContext) (req : GoMap (GoMap Bool)) (jfId : String) :
      Step app (app.SetNotify req jfId).2
  | delete (app : appContext) (req : deleteReq) : Step app (app.DeleteInvite req).2

/-- The contexts reached from one whose invite store is empty, in memory and
persisted, by any finite sequence of `Step`s. -/
inductive Reachable : appContext → Prop where
  | empty (app : appContext) :
      app.storage.invites = ∅ → app.storage.invite_path = ∅ → Reachable app
  | step (app next : appContext) : Reachable app → Step app next → Reachable next

/-- The addresses of the `Notify` map of the invite stored under `code`. -/
def notifyAddresses (m : GoMap Invite) (code : String) : List String :=
  match m.lookup code with
  | none => []
  | some inv =>
    match inv.Notify with
    | none => []
    | some notify => notify.keys

/-! ## Concrete stores used to instantiate the theorems -/

/-- An invite valid until Unix second 100 with the given use count and flag. -/
def exInvite (uses : Int) (noLimit : Bool) : Invite :=
  { Invite.zero with RemainingUses := uses, NoLimit := noLimit, ValidTill := ⟨100, 0, UTC⟩ }

/-- A context whose persisted store is `store`, with notifications enabled. -/
def exApp (store : GoMap Invite) : appContext :=
  { storage :=
      { invites := ∅, invite_path := store, profiles := ∅, emails := ∅, emails_path := ∅ }
    config := ⟨true, false, false, false, "admin@example.org"⟩
    datePattern := "%d/%m/%y", timePattern := "%H:%M"
    strftime := fun _ p => p, stored := 0, started := [] }

/-- Three redemptions at Unix seconds 10, 20 and 30. -/
def exCalls3 : List (Time × String) :=
  [(⟨10, 0, UTC⟩, "ann"), (⟨20, 0, UTC⟩, "bob"), (⟨30, 0, UTC⟩, "cy")]

/-- The instant 2021-03-31 23:00:00 UTC, in `time.UTC`. -/
def exMarch31 : Time := ⟨1617231600, 0, UTC⟩

/-- The instant 2021-04-30 23:30:00 UTC, in `time.UTC`. -/
def exApril30 : Time := ⟨1619825400, 0, UTC⟩

/-- A fixed zone two hours east of UTC. -/
def exEET : Location := ⟨"EET", 7200, []⟩

/-- The instant 2021-04-30 23:30:00 UTC in the zone `exEET`, where it reads
2021-05-01 01:30:00. -/
def exMay1 : Time := ⟨1619825400, 0, exEET⟩

/-- A location two hours east of UTC until 2020-10-25 01:00:00 UTC and one
hour east from then on (the end of summer time in Berlin). -/
def exBerlin : Location := ⟨"Europe/Berlin", 7200, [(1603587600, 3600)]⟩

/-- The instant 2020-10-25 00:59:00 UTC, which reads 02:59:00 in `exBerlin`. -/
def exBeforeShift : Time := ⟨1603587540, 0, exBerlin⟩

/-- The instant 2020-10-25 01:01:00 UTC, which reads 02:01:00 in `exBerlin`. -/
def exAfterShift : Time := ⟨1603587660, 0, exBerlin⟩

/-- Notification settings of one address with the creation flag set. -/
def exWantsCreation : GoMap (GoMap Bool) :=
  AList.singleton "admin@example.org" (AList.singleton "notify-creation" true)

/-- A store with one invite valid until second 100, `uses` uses left, and
`exWantsCreation` as its `Notify`. -/
def exStoreCreation (uses : Int) : GoMap Invite :=
  AList.singleton "abc" { exInvite uses false with Notify := some exWantsCreation }

/-- A request to redeem the invite `abc`. -/
def exReq : newUserReq := ⟨"bob", "secret", "bob@example.org", "abc"⟩

/-- Collaborators that accept the password, know no such user and create it. -/
def exExt : Collaborators :=
  { validate := fun _ => [("length", true)]
    userByName := fun _ => false
    newUser := fun _ _ => (some "id1", 200, false) }

/-- Notification settings of two addresses: the first wants expiry
notifications, the second does not. A `range` visits them in this order. -/
def exTwoAddresses : GoMap (GoMap Bool) :=
  (AList.singleton "b@example.org" (AList.singleton "notify-expiry" false)).insert
    "a@example.org" (AList.singleton "notify-expiry" true)

/-- A store with one invite valid until second 100 whose `Notify` is
`exTwoAddresses`. -/
def exStoreExpiry : GoMap Invite :=
  AList.singleton "abc" { exInvite 1 false with Notify := some exTwoAddresses }

/-- A store with an invite valid until second 100 and one valid until
second 300. -/
def exStoreTwo : GoMap Invite :=
  (AList.singleton "old" (exInvite 1 false)).insert "new"
    { exInvite 1 false with ValidTill := ⟨300, 0, UTC⟩ }

/-- A single-use request for one hour. -/
def exGenReq : generateInviteReq :=
  { Days := 0, Hours := 1, Minutes := 0, Email := "", MultipleUses := false, NoLimit := true,
    RemainingUses := 7, Profile := "" }

/-- The context after `GenerateInvite` on `exGenReq` at second 50, from the
empty store, with the code `xyz`. -/
def exGenerated : appContext :=
  ((exApp ∅).loadInvites.setInvite "xyz"
    (generatedInvite (exApp ∅) ⟨50, 0, UTC⟩ exGenReq true)).storeInvites

/-- A request for a counted multiple-use invite with no use at all. -/
def exZeroUsesReq : generateInviteReq :=
  { Days := 0, Hours := 1, Minutes := 0, Email := "", MultipleUses := true, NoLimit := false,
    RemainingUses := 0, Profile := "" }

/-- A context whose in-memory map and persisted collection are both `store`. -/
def exLoaded (store : GoMap Invite) : appContext := (exApp store).loadInvites

/-- A `SetNotify` request that clears `notify-expiry` for the invite `abc`. -/
def exClearExpiry : GoMap (GoMap Bool) :=
  AList.singleton "abc" (AList.singleton "notify-expiry" false)

/-- Two invites without notification settings: `abc` and `xyz`. -/
def exStorePair : GoMap Invite :=
  (AList.singleton "xyz" (exInvite 1 false)).insert "abc" (exInvite 1 false)

/-- A `SetNotify` request that sets `notify-expiry` for `abc`, then for
`xyz`. -/
def exSetBoth : GoMap (GoMap Bool) :=
  (AList.singleton "xyz" (AList.singleton "notify-expiry" true)).insert
    "abc" (AList.singleton "notify-expiry" true)

/-! ## Theorems -/

/-! ### `checkInvite`, case by case -/

theorem checkInvite_absent (app : appContext) (now : Time) (code : String) (used : Bool)
    (username : String) (h : app.storage.invite_path.lookup code = none) :
    app.checkInvite now code used username = (false, app.loadInvites) := by
  simp [checkInvite, loadInvites, h]

theorem checkInvite_expired (app : appContext) (now : Time) (code : String) (used : Bool)
    (username : String) (inv : Invite) (h : app.storage.invite_path.lookup code = some inv)
    (he : now.After inv.ValidTill = true) :
    app.checkInvite now code used username
      = (false, (app.loadInvites.expire code inv).storeInvites) := by
  simp [checkInvite, loadInvites, h, he]

theorem checkInvite_peek (app : appContext) (now : Time) (code : String)
    (username : String) (inv : Invite) (h : app.storage.invite_path.lookup code = some inv)
    (he : now.After inv.ValidTill = false) :
    app.checkInvite now code false username = (true, app.loadInvites) := by
  simp [checkInvite, loadInvites, h, he]

theorem checkInvite_last (app : appContext) (now : Time) (code : String)
    (username : String) (inv : Invite) (h : app.storage.invite_path.lookup code = some inv)
    (he : now.After inv.ValidTill = false) (h1 : inv.RemainingUses = 1) :
    app.checkInvite now code true username
      = (true, (app.loadInvites.deleteInvite code).storeInvites) := by
  simp [checkInvite, loadInvites, h, he, h1]

theorem checkInvite_use (app : appContext) (now : Time) (code : String)
    (username : String) (inv : Invite) (h : app.storage.invite_path.lookup code = some inv)
    (he : now.After inv.ValidTill = false) (h1 : inv.RemainingUses ≠ 1) :
    app.checkInvite now code true username
      = (true, (app.loadInvites.setInvite code (consumed app now username inv)).storeInvites) := by
  by_cases h0 : inv.RemainingUses = 0 <;>
    simp [checkInvite, loadInvites, h, he, h1, h0, consumed, formatDatetime, prettyTime]

/-- What `checkInvite` returns, whatever the flag and the username. -/
theorem checkInvite_fst (app : appContext) (now : Time) (code : String) (used : Bool)
    (username : String) :
    (app.checkInvite now code used username).1
      = match app.storage.invite_path.lookup code with
        | some inv => !now.After inv.ValidTill
        | none => false := by
  cases h : app.storage.invite_path.lookup code with
  | none => rw [checkInvite_absent app now code used username h]
  | some inv =>
    cases he : now.After inv.ValidTill with
    | true => rw [checkInvite_expired app now code used username inv h he]; simp [he]
    | false =>
      cases used with
      | false => rw [checkInvite_peek app now code username inv h he]; simp [he]
      | true =>
        by_cases h1 : inv.RemainingUses = 1
        · rw [checkInvite_last app now code username inv h he h1]; simp [he]
        · rw [checkInvite_use app now code username inv h he h1]; simp [he]

/-- After any call the in-memory map and the persisted collection agree. -/
theorem checkInvite_synced (app : appContext) (now : Time) (code : String) (used : Bool)
    (username : String) :
    (app.checkInvite now code used username).2.storage.invites
      = (app.checkInvite now code used username).2.storage.invite_path := by
  cases h : app.storage.invite_path.lookup code with
  | none => rw [checkInvite_absent app now code used username h]; rfl
  | some inv =>
    cases he : now.After inv.ValidTill with
    | true => rw [checkInvite_expired app now code used username inv h he]; rfl
    | false =>
      cases used with
      | false => rw [checkInvite_peek app now code username inv h he]; rfl
      | true =>
        by_cases h1 : inv.RemainingUses = 1
        · rw [checkInvite_last app now code username inv h he h1]; rfl
        · rw [checkInvite_use app now code username inv h he h1]; rfl

theorem wrapInt64_id (x : Int) (h0 : -2 ^ 63 ≤ x) (h1 : x < 2 ^ 63) : wrapInt64 x = x := by
  unfold wrapInt64
  omega

theorem checkInviteSeq_synced (app : appContext) (code : String) (calls : List (Time × String))
    (hne : calls ≠ []) :
    (app.checkInviteSeq code calls).2.storage.invites
      = (app.checkInviteSeq code calls).2.storage.invite_path := by
  induction calls generalizing app with
  | nil => exact absurd rfl hne
  | cons c rest ih =>
    cases rest with
    | nil => simpa [checkInviteSeq] using checkInvite_synced app c.1 code true c.2
    | cons d rest2 =>
      simp only [checkInviteSeq] at ih ⊢
      exact ih _ (by simp)

/-- Consuming calls on an invite whose `RemainingUses` is 0 keep it, with the
same `RemainingUses`, `NoLimit` and `ValidTill`. -/
theorem checkInviteSeq_unlimited (code : String) (calls : List (Time × String)) :
    ∀ (app : appContext) (inv : Invite),
      app.storage.invite_path.lookup code = some inv →
      inv.RemainingUses = 0 →
      (∀ c ∈ calls, c.1.After inv.ValidTill = false) →
      (app.checkInviteSeq code calls).1 = List.replicate calls.length true ∧
      ∃ inv2, (app.checkInviteSeq code calls).2.storage.invite_path.lookup code = some inv2 ∧
        inv2.RemainingUses = 0 ∧ inv2.NoLimit = inv.NoLimit ∧ inv2.ValidTill = inv.ValidTill := by
  induction calls with
  | nil =>
    intro app inv h h0 _
    exact ⟨rfl, inv, h, h0, rfl, rfl⟩
  | cons c rest ih =>
    intro app inv h h0 hlive
    have hc : c.1.After inv.ValidTill = false := hlive c (by simp)
    have h1 : inv.RemainingUses ≠ 1 := by rw [h0]; decide
    have hstep := checkInvite_use app c.1 code c.2 inv h hc h1
    have hl : (app.checkInvite c.1 code true c.2).2.storage.invite_path.lookup code
        = some (consumed app c.1 c.2 inv) := by
      rw [hstep]; simp [storeInvites, setInvite, loadInvites]
    have hrest := ih (app.checkInvite c.1 code true c.2).2 (consumed app c.1 c.2 inv) hl
      (by simp [consumed, h0]) (fun d hd => by
        have := hlive d (by simp [hd])
        simpa [consumed] using this)
    obtain ⟨hr1, inv2, hr2, hr3, hr4, hr5⟩ := hrest
    refine ⟨?_, inv2, ?_, hr3, ?_, ?_⟩
    · simp only [checkInviteSeq, List.length_cons, List.replicate_succ]
      rw [hr1, hstep]
    · simpa [checkInviteSeq] using hr2
    · rw [hr4]; simp [consumed]
    · rw [hr5]; simp [consumed]

/-- As many consuming calls as `RemainingUses` says: all match, the invite
counts down, and it is gone at the end. -/
theorem checkInviteSeq_limited (code : String) (calls : List (Time × String)) :
    ∀ (app : appContext) (inv : Invite),
      app.storage.invite_path.lookup code = some inv →
      inv.RemainingUses = (calls.length : Int) → 1 ≤ calls.length →
      (calls.length : Int) < 2 ^ 63 →
      (∀ c ∈ calls, c.1.After inv.ValidTill = false) →
      (app.checkInviteSeq code calls).1 = List.replicate calls.length true ∧
      (app.checkInviteSeq code calls).2.storage.invite_path.lookup code = none ∧
      ∀ k, k < calls.length →
        ∃ inv2, (app.checkInviteSeq code (calls.take k)).2.storage.invite_path.lookup code
            = some inv2 ∧
          inv2.RemainingUses = (calls.length : Int) - k ∧ inv2.NoLimit = inv.NoLimit := by
  induction calls with
  | nil => intro app inv _ _ h1; simp at h1
  | cons c rest ih =>
    intro app inv h hr _ hb hlive
    have hc : c.1.After inv.ValidTill = false := hlive c (by simp)
    cases rest with
    | nil =>
      have h1 : inv.RemainingUses = 1 := by simpa using hr
      have hstep := checkInvite_last app c.1 code c.2 inv h hc h1
      refine ⟨?_, ?_, ?_⟩
      · simp [checkInviteSeq, hstep]
      · simp [checkInviteSeq, hstep, storeInvites, deleteInvite, loadInvites]
      · intro k hk
        have hk0 : k = 0 := by simp at hk; exact hk
        subst hk0
        exact ⟨inv, by simpa [checkInviteSeq] using h, by simpa using h1, rfl⟩
    | cons d rest2 =>
      have hlen : ((c :: d :: rest2).length : Int) = ((d :: rest2).length : Int) + 1 := by
        simp
      have h1 : inv.RemainingUses ≠ 1 := by
        rw [hr, hlen]; simp; omega
      have h0 : inv.RemainingUses ≠ 0 := by
        rw [hr, hlen]; omega
      have hstep := checkInvite_use app c.1 code c.2 inv h hc h1
      have hw : wrapInt64 (inv.RemainingUses - 1) = ((d :: rest2).length : Int) := by
        rw [wrapInt64_id] <;> omega
      have hl : (app.checkInvite c.1 code true c.2).2.storage.invite_path.lookup code
          = some (consumed app c.1 c.2 inv) := by
        rw [hstep]; simp [storeInvites, setInvite, loadInvites]
      have hrest := ih (app.checkInvite c.1 code true c.2).2 (consumed app c.1 c.2 inv) hl
        (by simp only [consumed, bne_iff_ne, ne_eq, h0, not_false_eq_true, if_true]; exact hw)
        (by simp) (by omega) (fun e he => by
          have := hlive e (by simp [he])
          simpa [consumed] using this)
      obtain ⟨hr1, hr2, hr3⟩ := hrest
      refine ⟨?_, ?_, ?_⟩
      · rw [checkInviteSeq]
        simp only [hr1, List.length_cons, List.replicate_succ]
        rw [hstep]
      · rw [checkInviteSeq]; exact hr2
      · intro k hk
        cases k with
        | zero => exact ⟨inv, by simpa [checkInviteSeq] using h, by simpa using hr, rfl⟩
        | succ j =>
          obtain ⟨inv2, hj1, hj2, hj3⟩ := hr3 j (by simp at hk ⊢; omega)
          refine ⟨inv2, ?_, ?_, ?_⟩
          · rw [List.take_succ_cons, checkInviteSeq]; exact hj1
          · rw [hj2]; simp
          · rw [hj3]; simp [consumed]

/-! ### Claims about `checkInvite` -/

/-- C1: `checkInvite` returns true exactly when the code is a key of the
store (the persisted collection the call reloads) and the current instant is
not after that invite's `ValidTill`; the result is the same for every value of
the consuming flag and of the username. -/
theorem checkInvite_match_iff (app : appContext) (now : Time) (code : String) (used : Bool)
    (username : String) :
    ((app.checkInvite now code used username).1 = true ↔
      ∃ inv, app.storage.invite_path.lookup code = some inv ∧ now.After inv.ValidTill = false) ∧
    ∀ (used2 : Bool) (username2 : String),
      (app.checkInvite now code used2 username2).1
        = (app.checkInvite now code used username).1 := by
  refine ⟨?_, fun u2 n2 => by rw [checkInvite_fst, checkInvite_fst]⟩
  rw [checkInvite_fst]
  cases h : app.storage.invite_path.lookup code with
  | none => simp
  | some inv => simp

/-- C2: on a store holding an unexpired invite with `RemainingUses == 1` and
`NoLimit == false` under `code`, one consuming call returns true and leaves the
store (in memory and persisted) equal to the old one without `code`, every
other code looking up as before; a second consuming call, at any instant and
for any username, returns false. -/
theorem checkInvite_single_use (app : appContext) (now : Time) (code username : String)
    (inv : Invite)
    (h : app.storage.invite_path.lookup code = some inv)
    (he : now.After inv.ValidTill = false)
    (h1 : inv.RemainingUses = 1) (_ : inv.NoLimit = false) :
    (app.checkInvite now code true username).1 = true ∧
    (app.checkInvite now code true username).2.storage.invites
      = app.storage.invite_path.erase code ∧
    (app.checkInvite now code true username).2.storage.invite_path
      = app.storage.invite_path.erase code ∧
    (app.checkInvite now code true username).2.storage.invites.lookup code = none ∧
    (∀ c, c ≠ code → (app.checkInvite now code true username).2.storage.invites.lookup c
      = app.storage.invite_path.lookup c) ∧
    ∀ (later : Time) (username2 : String),
      ((app.checkInvite now code true username).2.checkInvite later code true username2).1
        = false := by
  rw [checkInvite_last app now code username inv h he h1]
  refine ⟨rfl, rfl, rfl, ?_, ?_, ?_⟩
  · simp [storeInvites, deleteInvite, loadInvites]
  · intro c hc
    simp [storeInvites, deleteInvite, loadInvites, AList.lookup_erase_ne hc]
  · intro later username2
    rw [checkInvite_absent]
    simp [storeInvites, deleteInvite, loadInvites]

/-- C2, instantiated: a single-use invite valid until second 100, redeemed at
second 50. -/
theorem checkInvite_single_use_witness :
    ((exApp (AList.singleton "abc" (exInvite 1 false))).checkInvite
        ⟨50, 0, UTC⟩ "abc" true "bob").1 = true ∧
    ((exApp (AList.singleton "abc" (exInvite 1 false))).checkInvite
        ⟨50, 0, UTC⟩ "abc" true "bob").2.storage.invites.lookup "abc" = none :=
  have h := checkInvite_single_use (exApp (AList.singleton "abc" (exInvite 1 false)))
    ⟨50, 0, UTC⟩ "abc" "bob" (exInvite 1 false) (by decide) (by decide) (by decide) (by decide)
  ⟨h.1, h.2.2.2.1⟩

/-- C3 fails as stated: `checkInvite` never reads `NoLimit`, so an unexpired
invite with `NoLimit == true` and `RemainingUses == 1` is deleted by the first
consuming call. -/
theorem checkInvite_noLimit_counterexample :
    (exApp (AList.singleton "abc" (exInvite 1 true))).storage.invite_path.lookup "abc"
      = some (exInvite 1 true) ∧
    (exInvite 1 true).NoLimit = true ∧
    Time.After ⟨50, 0, UTC⟩ (exInvite 1 true).ValidTill = false ∧
    ((exApp (AList.singleton "abc" (exInvite 1 true))).checkInviteSeq "abc"
        [(⟨50, 0, UTC⟩, "bob")]).2.storage.invites.lookup "abc" = none := by
  decide

/-- C3, amended: for an invite with `NoLimit == true` and `RemainingUses == 0`
(the pair `GenerateInvite` stores for an unlimited invite) and every finite
sequence of consuming calls made while it is not expired, after each call
(the first `k` calls, `1 ≤ k`) every call so far returned true, the invite is
still in the store, in memory and persisted, its `RemainingUses` equals the
value before the first call, and `NoLimit` is still true. -/
theorem checkInvite_noLimit_kept (app : appContext) (code : String) (inv : Invite)
    (calls : List (Time × String))
    (h : app.storage.invite_path.lookup code = some inv)
    (hn : inv.NoLimit = true) (h0 : inv.RemainingUses = 0)
    (hlive : ∀ c ∈ calls, c.1.After inv.ValidTill = false) :
    ∀ k, 1 ≤ k → k ≤ calls.length →
      (app.checkInviteSeq code (calls.take k)).1 = List.replicate k true ∧
      ∃ inv2, (app.checkInviteSeq code (calls.take k)).2.storage.invites.lookup code = some inv2 ∧
        (app.checkInviteSeq code (calls.take k)).2.storage.invite_path.lookup code = some inv2 ∧
        inv2.RemainingUses = inv.RemainingUses ∧ inv2.NoLimit = true := by
  intro k hk1 hk2
  have hlen : (calls.take k).length = k := by simp [hk2]
  have hne : calls.take k ≠ [] := by
    intro he; rw [he] at hlen; simp at hlen; omega
  obtain ⟨hr, inv2, h2, h3, h4, _⟩ := checkInviteSeq_unlimited code (calls.take k) app inv h h0
    (fun c hc => hlive c (List.mem_of_mem_take hc))
  refine ⟨by rw [hr, hlen], inv2, ?_, h2, by rw [h3, h0], by rw [h4, hn]⟩
  rw [checkInviteSeq_synced app code _ hne]; exact h2

/-- C3 amended, instantiated: three redemptions of an unlimited invite. -/
theorem checkInvite_noLimit_kept_witness :
    ((exApp (AList.singleton "abc" (exInvite 0 true))).checkInviteSeq "abc"
        (exCalls3.take 3)).1 = List.replicate 3 true :=
  (checkInvite_noLimit_kept (exApp (AList.singleton "abc" (exInvite 0 true))) "abc"
    (exInvite 0 true) exCalls3 (by decide) (by decide) (by decide) (by decide)
    3 (by decide) (by decide)).1

/-- C4: for `n ≥ 1` (an `int`, so below `2^63`) and an unexpired invite with
`RemainingUses == n` and `NoLimit == false`, `n` successive consuming calls
before expiry all return true; after the `k`-th call, `1 ≤ k < n`, the invite is
still stored with `RemainingUses == n - k`; after the `n`-th call the code is
absent; and one more consuming call returns false. -/
theorem checkInvite_counts_down (app : appContext) (code : String) (inv : Invite) (n : Nat)
    (calls : List (Time × String))
    (h : app.storage.invite_path.lookup code = some inv)
    (hn1 : 1 ≤ n) (hb : (n : Int) < 2 ^ 63)
    (hr : inv.RemainingUses = (n : Int)) (_ : inv.NoLimit = false)
    (hlen : calls.length = n)
    (hlive : ∀ c ∈ calls, c.1.After inv.ValidTill = false) :
    (app.checkInviteSeq code calls).1 = List.replicate n true ∧
    (∀ k, 1 ≤ k → k < n →
      ∃ inv2, (app.checkInviteSeq code (calls.take k)).2.storage.invites.lookup code = some inv2 ∧
        inv2.RemainingUses = (n : Int) - k) ∧
    (app.checkInviteSeq code calls).2.storage.invites.lookup code = none ∧
    ∀ (later : Time) (username : String),
      ((app.checkInviteSeq code calls).2.checkInvite later code true username).1 = false := by
  subst hlen
  obtain ⟨r1, r2, r3⟩ := checkInviteSeq_limited code calls app inv h hr hn1 hb hlive
  have hne : calls ≠ [] := by
    intro he; rw [he] at hn1; simp at hn1
  refine ⟨r1, ?_, ?_, ?_⟩
  · intro k hk1 hk
    obtain ⟨inv2, h1, h2, _⟩ := r3 k hk
    refine ⟨inv2, ?_, h2⟩
    rw [checkInviteSeq_synced app code (calls.take k)]
    · exact h1
    · intro he
      have : (calls.take k).length = 0 := by rw [he]; rfl
      rw [List.length_take] at this
      omega
  · rw [checkInviteSeq_synced app code calls hne]; exact r2
  · intro later username
    rw [checkInvite_absent _ later code true username r2]

/-- C4, instantiated at the spec's case `n = 3`. -/
theorem checkInvite_counts_down_witness :
    ((exApp (AList.singleton "abc" (exInvite 3 false))).checkInviteSeq "abc" exCalls3).1
      = [true, true, true] ∧
    ((exApp (AList.singleton "abc" (exInvite 3 false))).checkInviteSeq "abc"
      exCalls3).2.storage.invites.lookup "abc" = none :=
  have h := checkInvite_counts_down (exApp (AList.singleton "abc" (exInvite 3 false))) "abc"
    (exInvite 3 false) 3 exCalls3 (by decide) (by decide) (by decide) (by decide) (by decide)
    (by decide) (by decide)
  ⟨h.1, h.2.2.1⟩

/-! ### The calendar of package `time` -/

theorem isLeap_iff (y : Nat) :
    isLeap ((y : Int) + absoluteZeroYear) = true ↔
      (y + 1) % 4 = 0 ∧ ((y + 1) % 100 ≠ 0 ∨ (y + 1) % 400 = 0) := by
  simp only [isLeap, absoluteZeroYear, Bool.and_eq_true, Bool.or_eq_true, beq_iff_eq, bne_iff_ne,
    ne_eq]
  omega

theorem secondsPerDay_eq : secondsPerDay = 86400 := rfl
theorem daysPer400Years_eq : daysPer400Years = 146097 := rfl
theorem daysPer100Years_eq : daysPer100Years = 36524 := rfl
theorem daysPer4Years_eq : daysPer4Years = 1461 := rfl

theorem absYear_spec (abs : Nat) :
    abs / 86400 + (absYear abs).1 / 100
        = 365 * (absYear abs).1 + (absYear abs).1 / 4 + (absYear abs).1 / 400 + (absYear abs).2 ∧
      (absYear abs).2 < 366 ∧
      ((absYear abs).2 = 365 →
        ((absYear abs).1 + 1) % 4 = 0 ∧
          (((absYear abs).1 + 1) % 100 ≠ 0 ∨ ((absYear abs).1 + 1) % 400 = 0)) := by
  simp only [absYear, secondsPerDay_eq, daysPer400Years_eq, daysPer100Years_eq,
    daysPer4Years_eq, Nat.shiftRight_eq_div_pow]
  generalize abs / 86400 = d
  generalize h1 : d / 146097 = n1
  generalize h2 : (d - 146097 * n1) / 36524 = m2
  generalize h2b : m2 / 2 ^ 2 = q2
  generalize h3 : (d - 146097 * n1 - 36524 * (m2 - q2)) / 1461 = n3
  generalize h4 : (d - 146097 * n1 - 36524 * (m2 - q2) - 1461 * n3) / 365 = m4
  generalize h4b : m4 / 2 ^ 2 = q4
  have e1 : 146097 * n1 ≤ d ∧ d < 146097 * n1 + 146097 := by omega
  have e2 : m2 ≤ 4 := by omega
  have e2b : m2 - q2 ≤ 3 ∧ (m2 = 4 → q2 = 1) ∧ (m2 < 4 → q2 = 0) := by omega
  have e3 : n3 ≤ 24 := by omega
  have e4 : m4 ≤ 4 := by omega
  have e4b : m4 - q4 ≤ 3 ∧ (m4 = 4 → q4 = 1) ∧ (m4 < 4 → q4 = 0) := by omega
  generalize hn2 : m2 - q2 = n2 at *
  generalize hn4 : m4 - q4 = n4 at *
  have y4 : (400 * n1 + 100 * n2 + 4 * n3 + n4) / 4 = 100 * n1 + 25 * n2 + n3 := by omega
  have y100 : (400 * n1 + 100 * n2 + 4 * n3 + n4) / 100 = 4 * n1 + n2 := by omega
  have y400 : (400 * n1 + 100 * n2 + 4 * n3 + n4) / 400 = n1 := by omega
  rw [y4, y100, y400]
  refine ⟨by omega, by omega, ?_⟩
  intro h365
  omega

set_option maxRecDepth 100000 in
theorem absMonthDay_spec : ∀ (leap : Bool), ∀ yd < 366, (yd < 365 ∨ leap = true) →
    1 ≤ (absMonthDay leap yd).1 ∧ (absMonthDay leap yd).1 ≤ 12 ∧
    1 ≤ (absMonthDay leap yd).2 ∧ (absMonthDay leap yd).2 ≤ monthLen leap (absMonthDay leap yd).1 ∧
    yd + 1 = monthStart leap (absMonthDay leap yd).1 + (absMonthDay leap yd).2 := by
  decide

theorem monthStart_succ : ∀ (leap : Bool), ∀ m < 13, 1 ≤ m →
    monthStart leap (m + 1) = monthStart leap m + monthLen leap m := by
  decide

theorem absMonthDay_day32 : ∀ (leap : Bool), ∀ m < 12, 1 ≤ m →
    monthStart leap m + 31 < 365 ∧
    (absMonthDay leap (monthStart leap m + 31)).2 + monthLen leap m = 32 := by
  decide

theorem isLeap_eq (y : Nat) : isLeap ((y : Int) + absoluteZeroYear) = leapIdx y := by
  rw [Bool.eq_iff_iff, isLeap_iff]
  simp [leapIdx]

theorem daysBeforeYear_succ (y : Nat) :
    daysBeforeYear (y + 1) = daysBeforeYear y + yearLen y := by
  have a4 : (y + 1) / 4 = y / 4 + (if (y + 1) % 4 = 0 then 1 else 0) := by
    split_ifs <;> omega
  have a100 : (y + 1) / 100 = y / 100 + (if (y + 1) % 100 = 0 then 1 else 0) := by
    split_ifs <;> omega
  have a400 : (y + 1) / 400 = y / 400 + (if (y + 1) % 400 = 0 then 1 else 0) := by
    split_ifs <;> omega
  have b1 : y / 100 ≤ y / 4 := by omega
  unfold daysBeforeYear yearLen leapIdx
  rw [a4, a100, a400]
  generalize y / 4 = q4 at *
  generalize y / 100 = q100 at *
  generalize y / 400 = q400 at *
  by_cases h4 : (y + 1) % 4 = 0 <;> by_cases h100 : (y + 1) % 100 = 0 <;>
    by_cases h400 : (y + 1) % 400 = 0 <;> simp [h4, h100, h400] <;> omega

theorem daysBeforeYear_lt (y z : Nat) (h : y < z) :
    daysBeforeYear y + yearLen y ≤ daysBeforeYear z := by
  induction z with
  | zero => omega
  | succ k ih =>
    rw [daysBeforeYear_succ]
    rcases Nat.lt_succ_iff_lt_or_eq.mp h with hlt | heq
    · have := ih hlt
      omega
    · subst heq
      omega

theorem absYear_days (abs : Nat) :
    abs / secondsPerDay = daysBeforeYear (absYear abs).1 + (absYear abs).2 ∧
      (absYear abs).2 < yearLen (absYear abs).1 := by
  obtain ⟨s1, s2, s3⟩ := absYear_spec abs
  unfold daysBeforeYear yearLen leapIdx
  rw [secondsPerDay_eq]
  constructor
  · omega
  · split_ifs with h
    · exact s2
    · simp at h
      omega

theorem absYear_unique (abs y yd : Nat)
    (h : abs / secondsPerDay = daysBeforeYear y + yd) (hyd : yd < yearLen y) :
    absYear abs = (y, yd) := by
  obtain ⟨s1, s2⟩ := absYear_days abs
  generalize (absYear abs) = p at *
  obtain ⟨y2, yd2⟩ := p
  simp only at s1 s2
  have hy : y2 = y := by
    rcases Nat.lt_trichotomy y2 y with hlt | heq | hgt
    · have := daysBeforeYear_lt y2 y hlt
      omega
    · exact heq
    · have := daysBeforeYear_lt y y2 hgt
      omega
  subst hy
  have : yd2 = yd := by omega
  subst this
  rfl

theorem norm_id (hi lo base : Int) (h0 : 0 ≤ lo) (h1 : lo < base) : norm hi lo base = (hi, lo) := by
  have a : ¬ lo < 0 := by omega
  have b : ¬ lo ≥ base := by omega
  simp [norm, a, b]

theorem abs_roundtrip (x : Nat) (h : x < 2 ^ 64) :
    toUint64 (wrapInt64 (wrapInt64 (x : Int) + (absoluteToInternal + internalToUnix)) + 0
      + (unixToInternal + internalToAbsolute)) = x := by
  simp only [toUint64, wrapInt64, absoluteToInternal, internalToUnix, unixToInternal,
    internalToAbsolute, secondsPerDay, secondsPerHour, secondsPerMinute]
  norm_num
  omega

theorem cycles_eq (y : Nat) :
    daysPer400Years * (y / 400) + daysPer100Years * ((y - 400 * (y / 400)) / 100)
      + daysPer4Years * ((y - 400 * (y / 400) - 100 * ((y - 400 * (y / 400)) / 100)) / 4)
      + 365 * (y - 400 * (y / 400) - 100 * ((y - 400 * (y / 400)) / 100)
          - 4 * ((y - 400 * (y / 400) - 100 * ((y - 400 * (y / 400)) / 100)) / 4))
      = daysBeforeYear y := by
  simp only [daysPer400Years_eq, daysPer100Years_eq, daysPer4Years_eq, daysBeforeYear]
  generalize h1 : y / 400 = n1
  generalize h2 : (y - 400 * n1) / 100 = n2
  generalize h3 : (y - 400 * n1 - 100 * n2) / 4 = n3
  have e2 : n2 ≤ 3 := by omega
  have e3 : n3 ≤ 24 := by omega
  have y4 : y / 4 = 100 * n1 + 25 * n2 + n3 := by omega
  have y100 : y / 100 = 4 * n1 + n2 := by omega
  rw [y4, y100]
  omega


theorem toUint64_wrap_nat (y : Nat) (h : (y : Int) < 2 ^ 63) :
    toUint64 (wrapInt64 ((y : Int) + absoluteZeroYear - absoluteZeroYear)) = y := by
  simp only [toUint64, wrapInt64, absoluteZeroYear]
  omega

theorem toUint64_natCast (z : Nat) : toUint64 (z : Int) = z % 2 ^ 64 := by
  unfold toUint64
  have : ((z : Int) % 2 ^ 64) = ((z % 2 ^ 64 : Nat) : Int) := by
    rw [Int.natCast_mod]; norm_num
  rw [this, Int.toNat_ofNat]

theorem toUint64_lt (x : Int) : toUint64 x < 2 ^ 64 := by
  unfold toUint64
  have h1 : 0 ≤ x % 2 ^ 64 := Int.emod_nonneg _ (by norm_num)
  have h2 : x % 2 ^ 64 < 2 ^ 64 := Int.emod_lt_of_pos _ (by norm_num)
  norm_num at h1 h2 ⊢
  omega

theorem toUint64_day32 (X : Nat) :
    toUint64 (((X : Int) + (32 - 1)) * 86400 + (0 * 3600 + 0 * 60 + 0))
      = ((X + 31) * 86400) % 2 ^ 64 := by
  have h1 : (((X : Int) + (32 - 1)) * 86400 + (0 * 3600 + 0 * 60 + 0))
      = (((X + 31) * 86400 : Nat) : Int) := by
    push_cast; ring
  rw [h1, toUint64_natCast]

theorem UTC_lookup (s : Int) : UTC.lookup s = 0 := rfl

theorem Date_day32_abs (y m : Nat) (hm1 : 1 ≤ m) (hm12 : m ≤ 12) (hy : (y : Int) < 2 ^ 63) :
    (Date ((y : Int) + absoluteZeroYear) (m : Int) 32 0 0 0 0).abs
      = ((daysBeforeYear y + monthStart (leapIdx y) m + 31) * secondsPerDay) % 2 ^ 64 := by
  have n1 : norm ((y : Int) + absoluteZeroYear) ((m : Int) - 1) 12
      = ((y : Int) + absoluteZeroYear, (m : Int) - 1) := norm_id _ _ _ (by omega) (by omega)
  have n2 : norm 0 0 1000000000 = (0, 0) := by decide
  have n3 : norm 0 0 60 = (0, 0) := by decide
  have n4 : norm 32 0 24 = (32, 0) := by decide
  simp only [Date, n1, n2, n3, n4, toUint64_wrap_nat y hy, cycles_eq, isLeap_eq, Time.abs,
    UTC_lookup]
  have e1 : ((m : Int) - 1 + 1 - 1).toNat = m - 1 := by omega
  have e2 : decide ((m : Int) - 1 + 1 ≥ 3) = decide (m ≥ 3) := by
    rw [decide_eq_decide]; omega
  rw [e1, e2]
  have key : (if (leapIdx y && decide (m ≥ 3)) = true then
        daysBeforeYear y + daysBefore.getD (m - 1) 0 + 1
      else daysBeforeYear y + daysBefore.getD (m - 1) 0)
      = daysBeforeYear y + monthStart (leapIdx y) m := by
    unfold monthStart
    split_ifs <;> omega
  rw [key]
  generalize daysBeforeYear y + monthStart (leapIdx y) m = X at *
  have e3 : toUint64 ((((X : Nat) : Int) + (32 - 1)) * ((secondsPerDay : Nat) : Int)
      + (0 * ((secondsPerHour : Nat) : Int) + 0 * ((secondsPerMinute : Nat) : Int) + 0))
      = ((X + 31) * secondsPerDay) % 2 ^ 64 := by
    have := toUint64_day32 X
    simpa [secondsPerDay, secondsPerHour, secondsPerMinute] using this
  rw [e3]
  exact abs_roundtrip _ (Nat.mod_lt _ (by norm_num))

theorem Time_Date_eq (t : Time) :
    t.Date = (((absYear t.abs).1 : Int) + absoluteZeroYear,
      ((absMonthDay (leapIdx (absYear t.abs).1) (absYear t.abs).2).1 : Int),
      ((absMonthDay (leapIdx (absYear t.abs).1) (absYear t.abs).2).2 : Int)) := by
  simp [Time.Date, absDate, isLeap_eq]

theorem Time_Day_eq (t : Time) :
    t.Day = ((absMonthDay (leapIdx (absYear t.abs).1) (absYear t.abs).2).2 : Int) := by
  simp [Time.Day, absDate, isLeap_eq]

theorem daysBeforeYear_ge (y : Nat) : 365 * y ≤ daysBeforeYear y := by
  unfold daysBeforeYear
  omega

theorem absMonthDay_zero (leap : Bool) : absMonthDay leap 0 = (1, 1) := by
  cases leap <;> decide

theorem monthStart_twelve (leap : Bool) :
    monthStart leap 12 + 31 = (if leap then 366 else 365) ∧ monthLen leap 12 = 31 := by
  cases leap <;> decide

theorem absMonthDay_january : ∀ k < 31, absMonthDay false k = (1, k + 1) := by
  decide

theorem absYear_first_days (abs : Nat) (h : abs / secondsPerDay < 365) :
    absYear abs = (0, abs / secondsPerDay) :=
  absYear_unique abs 0 (abs / secondsPerDay) (by simp [daysBeforeYear]) (by
    have : yearLen 0 = 365 := by decide
    rw [this]; exact h)

/-- The day borrowed from: the day of the month of `t` plus the day of the
month of `time.Date(y, M, 32, ...)` is at most 32, where `(y, M, _)` is
`t.Date()`. This holds also when the `uint64` sum inside `time.Date` wraps. -/
theorem day_borrow (t : Time) :
    1 ≤ t.Date.2.2 ∧ t.Date.2.2 ≤ 31 ∧
      t.Date.2.2 + (Date t.Date.1 t.Date.2.1 32 0 0 0 0).Day ≤ 32 := by
  have h : t.abs < 2 ^ 64 := toUint64_lt _
  rw [Time_Date_eq]
  simp only
  obtain ⟨hd, hyd⟩ := absYear_days t.abs
  generalize hy : (absYear t.abs).1 = y at *
  generalize hyd0 : (absYear t.abs).2 = yd at *
  have hyd366 : yd < 366 := by
    unfold yearLen at hyd; split_ifs at hyd <;> omega
  have hleap : yd < 365 ∨ leapIdx y = true := by
    unfold yearLen at hyd; split_ifs at hyd with hl
    · exact Or.inr hl
    · exact Or.inl hyd
  obtain ⟨m1, m12, d1, dlen, hsum⟩ := absMonthDay_spec (leapIdx y) yd hyd366 hleap
  generalize hm : (absMonthDay (leapIdx y) yd).1 = m at *
  generalize hdd : (absMonthDay (leapIdx y) yd).2 = dd at *
  have hge := daysBeforeYear_ge y
  rw [secondsPerDay_eq] at hd
  have hyb : (y : Int) < 2 ^ 63 := by
    norm_num at h ⊢
    omega
  have habs := Date_day32_abs y m m1 m12 hyb
  rw [Time_Day_eq, habs]
  have hlen31 : monthLen (leapIdx y) m ≤ 31 := by
    unfold monthLen; split <;> (try split_ifs) <;> omega
  rcases Nat.lt_or_ge ((daysBeforeYear y + monthStart (leapIdx y) m + 31) * secondsPerDay)
    (2 ^ 64) with hb | hb
  · rw [Nat.mod_eq_of_lt hb]
    have hdiv : (daysBeforeYear y + monthStart (leapIdx y) m + 31) * secondsPerDay / secondsPerDay
        = daysBeforeYear y + monthStart (leapIdx y) m + 31 := by
      rw [secondsPerDay_eq]; omega
    rcases Nat.lt_or_ge m 12 with hlt | hge12
    · obtain ⟨f1, f2⟩ := absMonthDay_day32 (leapIdx y) m hlt m1
      have hu := absYear_unique _ y (monthStart (leapIdx y) m + 31)
        (by rw [hdiv]; omega) (by unfold yearLen; split_ifs <;> omega)
      rw [hu]
      simp only
      omega
    · have hm12 : m = 12 := by omega
      subst hm12
      obtain ⟨g1, g2⟩ := monthStart_twelve (leapIdx y)
      have hu := absYear_unique
        ((daysBeforeYear y + monthStart (leapIdx y) 12 + 31) * secondsPerDay) (y + 1) 0
        (by rw [hdiv, daysBeforeYear_succ]; unfold yearLen; omega)
        (by unfold yearLen; split_ifs <;> omega)
      rw [hu]
      simp only [absMonthDay_zero]
      omega
  · generalize hX : daysBeforeYear y + monthStart (leapIdx y) m = X at *
    rw [secondsPerDay_eq] at hb ⊢
    norm_num at h hb ⊢
    have hk : (X + 31) * 86400 % 18446744073709551616 / 86400 + dd ≤ 31 := by omega
    have hfirst := absYear_first_days ((X + 31) * 86400 % 18446744073709551616)
      (by rw [secondsPerDay_eq]; omega)
    rw [secondsPerDay_eq] at hfirst
    rw [hfirst]
    have hl0 : leapIdx 0 = false := by decide
    simp only [hl0]
    rw [absMonthDay_january _ (by omega)]
    simp only
    omega

theorem absClock_range (abs : Nat) :
    0 ≤ (absClock abs).1 ∧ (absClock abs).1 < 24 ∧
    0 ≤ (absClock abs).2.1 ∧ (absClock abs).2.1 < 60 ∧
    0 ≤ (absClock abs).2.2 ∧ (absClock abs).2.2 < 60 := by
  simp only [absClock, secondsPerDay, secondsPerHour, secondsPerMinute]
  omega

theorem monthStart_mono : ∀ (leap : Bool), ∀ m1 < 13, ∀ m2 < m1, 1 ≤ m2 →
    monthStart leap m2 + monthLen leap m2 ≤ monthStart leap m1 := by
  decide

theorem absClock_mono (a b : Nat) (h : a ≤ b) (hd : a / secondsPerDay = b / secondsPerDay) :
    (absClock a).1 < (absClock b).1 ∨ ((absClock a).1 = (absClock b).1 ∧
      ((absClock a).2.1 < (absClock b).2.1 ∨ ((absClock a).2.1 = (absClock b).2.1 ∧
        (absClock a).2.2 ≤ (absClock b).2.2))) := by
  simp only [absClock, secondsPerDay, secondsPerHour, secondsPerMinute] at hd ⊢
  omega

theorem absDate_eq (abs : Nat) :
    absDate abs = (((absYear abs).1 : Int) + absoluteZeroYear,
      ((absMonthDay (leapIdx (absYear abs).1) (absYear abs).2).1 : Int),
      ((absMonthDay (leapIdx (absYear abs).1) (absYear abs).2).2 : Int),
      ((absYear abs).2 : Int)) := by
  simp [absDate, isLeap_eq]

theorem absYear_same_day (a b : Nat) (hd : a / secondsPerDay = b / secondsPerDay) :
    absYear a = absYear b := by
  simp only [absYear, hd]

theorem absDate_lt (a b : Nat) (h : a / secondsPerDay < b / secondsPerDay) :
    (absDate a).1 < (absDate b).1 ∨ ((absDate a).1 = (absDate b).1 ∧
      ((absDate a).2.1 < (absDate b).2.1 ∨ ((absDate a).2.1 = (absDate b).2.1 ∧
        (absDate a).2.2.1 < (absDate b).2.2.1))) := by
  rw [absDate_eq, absDate_eq]
  simp only
  obtain ⟨ha, hya⟩ := absYear_days a
  obtain ⟨hb, hyb⟩ := absYear_days b
  generalize (absYear a).1 = y1 at *
  generalize (absYear a).2 = yd1 at *
  generalize (absYear b).1 = y2 at *
  generalize (absYear b).2 = yd2 at *
  rcases Nat.lt_trichotomy y1 y2 with hlt | heq | hgt
  · left; omega
  · right
    subst heq
    refine ⟨rfl, ?_⟩
    have hyd : yd1 < yd2 := by omega
    have h366 : yd2 < 366 := by unfold yearLen at hyb; split_ifs at hyb <;> omega
    have hl2 : yd2 < 365 ∨ leapIdx y1 = true := by
      unfold yearLen at hyb; split_ifs at hyb with hl
      · exact Or.inr hl
      · exact Or.inl hyb
    obtain ⟨a1, a2, a3, a4, a5⟩ := absMonthDay_spec (leapIdx y1) yd1 (by omega) (by omega)
    obtain ⟨b1, b2, b3, b4, b5⟩ := absMonthDay_spec (leapIdx y1) yd2 h366 hl2
    generalize (absMonthDay (leapIdx y1) yd1).1 = m1 at *
    generalize (absMonthDay (leapIdx y1) yd1).2 = dd1 at *
    generalize (absMonthDay (leapIdx y1) yd2).1 = m2 at *
    generalize (absMonthDay (leapIdx y1) yd2).2 = dd2 at *
    rcases Nat.lt_trichotomy m1 m2 with mlt | meq | mgt
    · left; omega
    · right; subst meq; exact ⟨rfl, by omega⟩
    · exfalso
      have := monthStart_mono (leapIdx y1) m1 (by omega) m2 mgt b1
      omega
  · exfalso
    have := daysBeforeYear_lt y2 y1 hgt
    omega

theorem civil_mono (a b : Nat) (h : a ≤ b) :
    lexLe (absDate a).1 (absDate a).2.1 (absDate a).2.2.1
      (absClock a).1 (absClock a).2.1 (absClock a).2.2
      (absDate b).1 (absDate b).2.1 (absDate b).2.2.1
      (absClock b).1 (absClock b).2.1 (absClock b).2.2 := by
  have hdiv : a / secondsPerDay ≤ b / secondsPerDay := Nat.div_le_div_right h
  rcases Nat.lt_or_eq_of_le hdiv with hlt | heq
  · have := absDate_lt a b hlt
    unfold lexLe
    omega
  · have hc := absClock_mono a b h heq
    have hy := absYear_same_day a b heq
    have hd : absDate a = absDate b := by rw [absDate_eq, absDate_eq, hy]
    unfold lexLe
    rw [hd]
    omega


/-! ### Claims about `timeDiff` -/

theorem In_same (a b : Time) (h : a.Location = b.Location) : b.In a.Location = b := by
  cases b; simp only [Time.In, Time.Location] at *; rw [h]

theorem timeDiff_b (a b : Time) :
    (if a.Location ≠ b.Location then b.In a.Location else b) = b.In a.Location := by
  split_ifs with h
  · rfl
  · exact (In_same a b (not_not.mp h)).symm

theorem timeDiff_eq (a b : Time) :
    timeDiff a b = borrowPass
      ((later a b).Date.1 - (earlier a b).Date.1)
      ((later a b).Date.2.1 - (earlier a b).Date.2.1)
      ((later a b).Date.2.2 - (earlier a b).Date.2.2)
      ((later a b).Clock.1 - (earlier a b).Clock.1)
      ((later a b).Clock.2.1 - (earlier a b).Clock.2.1)
      ((later a b).Clock.2.2 - (earlier a b).Clock.2.2)
      (32 - (Date (earlier a b).Date.1 (earlier a b).Date.2.1 32 0 0 0 0).Day) := by
  unfold timeDiff earlier later
  rw [timeDiff_b]
  rfl

/-- C5, amended: for every pair of instants carrying the same location,
`timeDiff(a, b)` and `timeDiff(b, a)` return the same six components. -/
theorem timeDiff_comm_of_same_location (a b : Time) (h : a.Location = b.Location) :
    timeDiff a b = timeDiff b a := by
  rw [timeDiff_eq, timeDiff_eq]
  have e1 : earlier a b = earlier b a ∧ later a b = later b a := by
    unfold earlier later
    rw [In_same a b h, In_same b a h.symm]
    by_cases hab : a.After b = true
    · have hba : b.After a = false := by
        simp only [Time.After, Bool.or_eq_true, Bool.and_eq_true, decide_eq_true_eq] at hab
        simp only [Time.After, Bool.or_eq_false_iff, Bool.and_eq_false_iff, decide_eq_false_iff_not]
        omega
      simp [hab, hba]
    · by_cases hba : b.After a = true
      · simp [hab, hba]
      · have : a = b := by
          simp only [Time.After, Bool.or_eq_true, Bool.and_eq_true, decide_eq_true_eq] at hab hba
          cases a; cases b
          simp only [Time.Location] at h
          simp only [Time.mk.injEq]
          simp only at hab hba
          refine ⟨?_, ?_, h⟩ <;> omega
        subst this
        simp
  rw [e1.1, e1.2]

theorem Date_range (t : Time) :
    1 ≤ t.Date.2.1 ∧ t.Date.2.1 ≤ 12 ∧ 1 ≤ t.Date.2.2 ∧ t.Date.2.2 ≤ 31 := by
  rw [Time_Date_eq]
  simp only
  obtain ⟨_, hyd⟩ := absYear_days t.abs
  generalize (absYear t.abs).1 = y at *
  generalize (absYear t.abs).2 = yd at *
  have hyd366 : yd < 366 := by
    unfold yearLen at hyd; split_ifs at hyd <;> omega
  have hleap : yd < 365 ∨ leapIdx y = true := by
    unfold yearLen at hyd; split_ifs at hyd with hl
    · exact Or.inr hl
    · exact Or.inl hyd
  obtain ⟨m1, m12, d1, dlen, _⟩ := absMonthDay_spec (leapIdx y) yd hyd366 hleap
  have hlen31 : monthLen (leapIdx y) (absMonthDay (leapIdx y) yd).1 ≤ 31 := by
    unfold monthLen; split <;> (try split_ifs) <;> omega
  omega

theorem abs_of_inRange (t : Time) (h : t.inRange = true) :
    (t.abs : Int) = t.sec + t.loc.lookup t.sec + 9223372028715321600 ∧
      t.abs + 32 * 86400 < 2 ^ 64 := by
  simp only [Time.inRange, Bool.and_eq_true, decide_eq_true_eq, unixToInternal,
    internalToAbsolute, absoluteToInternal, secondsPerDay, secondsPerHour, secondsPerMinute] at h
  norm_num at h
  simp only [Time.abs, toUint64, unixToInternal,
    internalToAbsolute, absoluteToInternal, secondsPerDay, secondsPerHour, secondsPerMinute]
  norm_num
  generalize t.sec + t.loc.lookup t.sec = x at *
  have e : (x + 9223372028715321600) % 18446744073709551616 = x + 9223372028715321600 := by
    apply Int.emod_eq_of_lt <;> omega
  rw [e]
  omega

theorem borrowPass_nonneg (y1 M1 d1 h1 m1 s1 y2 M2 d2 h2 m2 s2 dim : Int)
    (hM1 : 1 ≤ M1 ∧ M1 ≤ 12) (hM2 : 1 ≤ M2 ∧ M2 ≤ 12)
    (hd1 : 1 ≤ d1 ∧ d1 ≤ dim) (hd2 : 1 ≤ d2 ∧ d2 ≤ 31)
    (hh1 : 0 ≤ h1 ∧ h1 < 24) (hh2 : 0 ≤ h2 ∧ h2 < 24)
    (hm1 : 0 ≤ m1 ∧ m1 < 60) (hm2 : 0 ≤ m2 ∧ m2 < 60)
    (hs1 : 0 ≤ s1 ∧ s1 < 60) (hs2 : 0 ≤ s2 ∧ s2 < 60) :
    0 ≤ (borrowPass (y2 - y1) (M2 - M1) (d2 - d1) (h2 - h1) (m2 - m1) (s2 - s1) dim).2.1 ∧
    0 ≤ (borrowPass (y2 - y1) (M2 - M1) (d2 - d1) (h2 - h1) (m2 - m1) (s2 - s1) dim).2.2.1 ∧
    0 ≤ (borrowPass (y2 - y1) (M2 - M1) (d2 - d1) (h2 - h1) (m2 - m1) (s2 - s1) dim).2.2.2.1 ∧
    0 ≤ (borrowPass (y2 - y1) (M2 - M1) (d2 - d1) (h2 - h1) (m2 - m1) (s2 - s1) dim).2.2.2.2.1 ∧
    0 ≤ (borrowPass (y2 - y1) (M2 - M1) (d2 - d1) (h2 - h1) (m2 - m1) (s2 - s1) dim).2.2.2.2.2 ∧
    (lexLe y1 M1 d1 h1 m1 s1 y2 M2 d2 h2 m2 s2 →
      0 ≤ (borrowPass (y2 - y1) (M2 - M1) (d2 - d1) (h2 - h1) (m2 - m1) (s2 - s1) dim).1) := by
  simp only [borrowPass, lexLe]
  refine ⟨?_, ?_, ?_, ?_, ?_, ?_⟩
  · split_ifs <;> omega
  · split_ifs <;> omega
  · split_ifs <;> omega
  · split_ifs <;> omega
  · split_ifs <;> omega
  · intro hl
    split_ifs <;> omega

theorem earlier_later_cases (a b : Time) :
    (earlier a b = a ∧ later a b = b.In a.Location ∧ a.After (b.In a.Location) = false) ∨
    (earlier a b = b.In a.Location ∧ later a b = a ∧ a.After (b.In a.Location) = true) := by
  unfold earlier later
  cases h : a.After (b.In a.Location) <;> simp

/-- Where the borrows of lines 57-80 do what their comment says: for every
pair of instants the components month, day, hour, min and sec of
`timeDiff(a, b)` are at least 0; the year is at least 0 as well when both
instants, read in the location of `a`, are in the range on which `abs` does not
wrap (`Time.inRange`) and that location has the same UTC offset at both
instants, as every fixed zone has. -/
theorem timeDiff_nonneg (a b : Time) :
    (0 ≤ (timeDiff a b).2.1 ∧ 0 ≤ (timeDiff a b).2.2.1 ∧ 0 ≤ (timeDiff a b).2.2.2.1 ∧
      0 ≤ (timeDiff a b).2.2.2.2.1 ∧ 0 ≤ (timeDiff a b).2.2.2.2.2) ∧
    (a.inRange = true → (b.In a.Location).inRange = true →
      a.Location.lookup a.sec = a.Location.lookup b.sec → 0 ≤ (timeDiff a b).1) := by
  rw [timeDiff_eq]
  obtain ⟨b1, b2, b3⟩ := day_borrow (earlier a b)
  obtain ⟨r1, r2, _, _⟩ := Date_range (earlier a b)
  obtain ⟨q1, q2, q3, q4⟩ := Date_range (later a b)
  have c1 := absClock_range (earlier a b).abs
  have c2 := absClock_range (later a b).abs
  have key := borrowPass_nonneg (earlier a b).Date.1 (earlier a b).Date.2.1 (earlier a b).Date.2.2
    (earlier a b).Clock.1 (earlier a b).Clock.2.1 (earlier a b).Clock.2.2
    (later a b).Date.1 (later a b).Date.2.1 (later a b).Date.2.2
    (later a b).Clock.1 (later a b).Clock.2.1 (later a b).Clock.2.2
    (32 - (Date (earlier a b).Date.1 (earlier a b).Date.2.1 32 0 0 0 0).Day)
    ⟨r1, r2⟩ ⟨q1, q2⟩ ⟨b1, by omega⟩ ⟨q3, q4⟩
    ⟨c1.1, c1.2.1⟩ ⟨c2.1, c2.2.1⟩ ⟨c1.2.2.1, c1.2.2.2.1⟩ ⟨c2.2.2.1, c2.2.2.2.1⟩
    ⟨c1.2.2.2.2.1, c1.2.2.2.2.2⟩ ⟨c2.2.2.2.2.1, c2.2.2.2.2.2⟩
  obtain ⟨k1, k2, k3, k4, k5, k6⟩ := key
  refine ⟨⟨k1, k2, k3, k4, k5⟩, ?_⟩
  intro ha hb hoff
  apply k6
  have hlo : (earlier a b).inRange = true := by
    rcases earlier_later_cases a b with ⟨h1, _, _⟩ | ⟨h1, _, _⟩ <;> rw [h1] <;> assumption
  have hhi : (later a b).inRange = true := by
    rcases earlier_later_cases a b with ⟨_, h1, _⟩ | ⟨_, h1, _⟩ <;> rw [h1] <;> assumption
  obtain ⟨lo1, _⟩ := abs_of_inRange _ hlo
  obtain ⟨hi1, _⟩ := abs_of_inRange _ hhi
  have hle : (earlier a b).abs ≤ (later a b).abs := by
    have hsec : (earlier a b).sec + (earlier a b).loc.lookup (earlier a b).sec
        ≤ (later a b).sec + (later a b).loc.lookup (later a b).sec := by
      rcases earlier_later_cases a b with ⟨h1, h2, h3⟩ | ⟨h1, h2, h3⟩
      · rw [h1, h2]
        simp only [Time.After, Time.In, Time.Location, Bool.or_eq_false_iff,
          Bool.and_eq_false_iff, decide_eq_false_iff_not] at h3 hoff ⊢
        omega
      · rw [h1, h2]
        simp only [Time.After, Time.In, Time.Location, Bool.or_eq_true, Bool.and_eq_true,
          decide_eq_true_eq] at h3 hoff ⊢
        omega
    omega
  have := civil_mono _ _ hle
  simpa [Time.Date, Time.Clock] using this

/-- The year of `timeDiff` at two instants in `time.UTC`. -/
theorem timeDiff_nonneg_witness : 0 ≤ (timeDiff exApril30 exMarch31).1 :=
  (timeDiff_nonneg exApril30 exMarch31).2 (by decide) (by decide) (by decide)

set_option maxRecDepth 100000 in
/-- C6 at its failing input: two instants of 2020-10-25 in Berlin, two minutes
apart, of which the earlier reads 02:59:00 (summer time) and the later
02:01:00. The later instant has the smaller wall clock, so the borrows of
lines 57-80, made to leave no negative value, run through to the year, which
has nothing to borrow from: `timeDiff` returns year -1, month 11, day 30,
hour 23, min 2, sec 0, in either order of its arguments. -/
theorem timeDiff_negative_year :
    exAfterShift.sec - exBeforeShift.sec = 120 ∧
    (exBeforeShift.Date, exBeforeShift.Clock) = ((2020, 10, 25), (2, 59, 0)) ∧
    (exAfterShift.Date, exAfterShift.Clock) = ((2020, 10, 25), (2, 1, 0)) ∧
    timeDiff exBeforeShift exAfterShift = (-1, 11, 30, 23, 2, 0) ∧
    timeDiff exAfterShift exBeforeShift = (-1, 11, 30, 23, 2, 0) := by
  decide

/-- C5 amended, instantiated at two instants in `time.UTC`. -/
theorem timeDiff_comm_witness : timeDiff exMarch31 exApril30 = timeDiff exApril30 exMarch31 :=
  timeDiff_comm_of_same_location exMarch31 exApril30 (by decide)

set_option maxRecDepth 100000 in
/-- C5 fails as stated: `timeDiff` reads both instants in the location of its
first argument. From 2021-03-31 23:00 to 2021-04-30 23:30 in UTC is 30 days
and 30 minutes; the same two instants read two hours east are 2021-04-01 01:00
and 2021-05-01 01:30, one month and 30 minutes apart. -/
theorem timeDiff_order_counterexample :
    timeDiff exMarch31 exMay1 = (0, 0, 30, 0, 30, 0) ∧
    timeDiff exMay1 exMarch31 = (0, 1, 0, 0, 30, 0) := by
  decide

/-! ### `checkInvites` and `GetInvites` -/


theorem expire_invites (app : appContext) (code : String) (data : Invite) :
    (app.expire code data).storage.invites = app.storage.invites.erase code := by
  by_cases h : (app.config.notifications_enabled && mapLen data.Notify != 0) = true <;>
    simp only [expire, h, if_true, if_false] <;> rfl

theorem expire_frame (app : appContext) (code : String) (data : Invite) :
    (app.expire code data).storage.invite_path = app.storage.invite_path ∧
    (app.expire code data).storage.profiles = app.storage.profiles ∧
    (app.expire code data).storage.emails = app.storage.emails ∧
    (app.expire code data).storage.emails_path = app.storage.emails_path ∧
    (app.expire code data).config = app.config ∧
    (app.expire code data).stored = app.stored := by
  by_cases h : (app.config.notifications_enabled && mapLen data.Notify != 0) = true <;>
    simp only [expire, h, if_true, if_false] <;> simp [deleteInvite, go]

theorem expire_started (app : appContext) (code : String) (data : Invite) :
    (app.expire code data).started
      = app.started ++ expiryTasks app.config.notifications_enabled code data := by
  by_cases h : (app.config.notifications_enabled && mapLen data.Notify != 0) = true <;>
    simp only [expire, expiryTasks, h, if_true, if_false] <;> simp [deleteInvite, go]

theorem sweepLoop_lookup (now : Time) (l : List (Sigma (fun _ : String => Invite))) :
    ∀ (st : appContext × Bool) (c : String),
      (sweepLoop now st l).1.storage.invites.lookup c
        = if (∃ e ∈ l, e.1 = c ∧ now.After e.2.ValidTill = true) then none
          else st.1.storage.invites.lookup c := by
  induction l with
  | nil => intro st c; simp [sweepLoop]
  | cons e rest ih =>
    intro st c
    have hstep : sweepLoop now st (e :: rest) = sweepLoop now (checkInvitesStep now st e) rest := rfl
    rw [hstep, ih]
    have hiff : (∃ x ∈ e :: rest, x.1 = c ∧ now.After x.2.ValidTill = true) ↔
        ((e.1 = c ∧ now.After e.2.ValidTill = true) ∨
          ∃ x ∈ rest, x.1 = c ∧ now.After x.2.ValidTill = true) := by
      simp only [List.mem_cons, exists_eq_or_imp]
    by_cases hx : now.After e.2.ValidTill = true
    · have h1 : (checkInvitesStep now st e).1.storage.invites = st.1.storage.invites.erase e.1 := by
        simp [checkInvitesStep, hx, expire_invites]
      rw [h1]
      by_cases hc : e.1 = c
      · subst hc
        rw [if_pos (hiff.mpr (Or.inl ⟨rfl, hx⟩))]
        simp
      · have hc2 : c ≠ e.1 := fun h => hc h.symm
        rw [AList.lookup_erase_ne hc2]
        by_cases hr : ∃ x ∈ rest, x.1 = c ∧ now.After x.2.ValidTill = true
        · rw [if_pos hr, if_pos (hiff.mpr (Or.inr hr))]
        · rw [if_neg hr, if_neg (fun h => (hiff.mp h).elim (fun h2 => hc h2.1) hr)]
    · have h1 : checkInvitesStep now st e = st := by
        simp [checkInvitesStep, hx]
      rw [h1]
      by_cases hr : ∃ x ∈ rest, x.1 = c ∧ now.After x.2.ValidTill = true
      · rw [if_pos hr, if_pos (hiff.mpr (Or.inr hr))]
      · rw [if_neg hr, if_neg (fun h => (hiff.mp h).elim (fun h2 => hx h2.2) hr)]

theorem sweepLoop_nil (now : Time) (st : appContext × Bool) : sweepLoop now st [] = st := rfl

theorem sweepLoop_cons (now : Time) (st : appContext × Bool)
    (e : Sigma (fun _ : String => Invite)) (l : List (Sigma (fun _ : String => Invite))) :
    sweepLoop now st (e :: l) = sweepLoop now (checkInvitesStep now st e) l := rfl

theorem checkInvitesStep_frame (now : Time) (st : appContext × Bool)
    (e : Sigma (fun _ : String => Invite)) :
    (checkInvitesStep now st e).1.storage.invite_path = st.1.storage.invite_path ∧
    (checkInvitesStep now st e).1.storage.profiles = st.1.storage.profiles ∧
    (checkInvitesStep now st e).1.storage.emails = st.1.storage.emails ∧
    (checkInvitesStep now st e).1.storage.emails_path = st.1.storage.emails_path ∧
    (checkInvitesStep now st e).1.config = st.1.config ∧
    (checkInvitesStep now st e).1.stored = st.1.stored := by
  by_cases hx : now.After e.2.ValidTill = true
  · simp only [checkInvitesStep, hx, if_true]
    exact expire_frame st.1 e.1 e.2
  · simp [checkInvitesStep, hx]

theorem sweepLoop_frame (now : Time) (l : List (Sigma (fun _ : String => Invite))) :
    ∀ (st : appContext × Bool),
      (sweepLoop now st l).1.storage.invite_path = st.1.storage.invite_path ∧
      (sweepLoop now st l).1.storage.profiles = st.1.storage.profiles ∧
      (sweepLoop now st l).1.storage.emails = st.1.storage.emails ∧
      (sweepLoop now st l).1.storage.emails_path = st.1.storage.emails_path ∧
      (sweepLoop now st l).1.config = st.1.config ∧
      (sweepLoop now st l).1.stored = st.1.stored := by
  induction l with
  | nil => intro st; simp [sweepLoop_nil]
  | cons e rest ih =>
    intro st
    rw [sweepLoop_cons]
    obtain ⟨a1, a2, a3, a4, a5, a6⟩ := ih (checkInvitesStep now st e)
    obtain ⟨b1, b2, b3, b4, b5, b6⟩ := checkInvitesStep_frame now st e
    exact ⟨a1.trans b1, a2.trans b2, a3.trans b3, a4.trans b4, a5.trans b5, a6.trans b6⟩

theorem sweepLoop_changed (now : Time) (l : List (Sigma (fun _ : String => Invite))) :
    ∀ (st : appContext × Bool),
      (sweepLoop now st l).2 = (st.2 || l.any (expiredAt now)) := by
  induction l with
  | nil => intro st; simp [sweepLoop_nil]
  | cons e rest ih =>
    intro st
    rw [sweepLoop_cons, ih]
    by_cases hx : now.After e.2.ValidTill = true
    · simp [checkInvitesStep, hx, expiredAt]
    · simp [checkInvitesStep, hx, expiredAt]

theorem sweepLoop_started (now : Time) (l : List (Sigma (fun _ : String => Invite))) :
    ∀ (st : appContext × Bool),
      (sweepLoop now st l).1.started
        = st.1.started ++ sweepTasks st.1.config.notifications_enabled now l := by
  induction l with
  | nil => intro st; simp [sweepLoop_nil, sweepTasks]
  | cons e rest ih =>
    intro st
    rw [sweepLoop_cons, ih]
    have hc := (checkInvitesStep_frame now st e).2.2.2.2.1
    rw [hc]
    by_cases hx : now.After e.2.ValidTill = true
    · simp [checkInvitesStep, hx, expire_started, sweepTasks, List.flatMap_cons]
    · simp [checkInvitesStep, hx, sweepTasks, List.flatMap_cons]

theorem sweepLoop_id (now : Time) (l : List (Sigma (fun _ : String => Invite))) :
    ∀ (st : appContext × Bool), (∀ e ∈ l, now.After e.2.ValidTill = false) →
      sweepLoop now st l = st := by
  induction l with
  | nil => intro st _; rfl
  | cons e rest ih =>
    intro st h
    rw [sweepLoop_cons]
    have hx : now.After e.2.ValidTill = false := h e (by simp)
    have h1 : checkInvitesStep now st e = st := by simp [checkInvitesStep, hx]
    rw [h1]
    exact ih st (fun x hx2 => h x (by simp [hx2]))

theorem checkInvites_eq (app : appContext) (now : Time) :
    app.checkInvites now
      = if (sweepLoop now (app.loadInvites, false) app.storage.invite_path.entries).2 then
          (sweepLoop now (app.loadInvites, false) app.storage.invite_path.entries).1.storeInvites
        else (sweepLoop now (app.loadInvites, false) app.storage.invite_path.entries).1 := rfl

theorem entries_expired_iff (m : GoMap Invite) (now : Time) (c : String) :
    (∃ e ∈ m.entries, e.1 = c ∧ now.After e.2.ValidTill = true) ↔
      ∃ inv, m.lookup c = some inv ∧ now.After inv.ValidTill = true := by
  constructor
  · rintro ⟨e, he, hc, hx⟩
    subst hc
    exact ⟨e.2, by
      have : e.2 ∈ m.lookup e.1 := AList.mem_lookup_iff.mpr he
      exact this, hx⟩
  · rintro ⟨inv, hl, hx⟩
    exact ⟨⟨c, inv⟩, AList.mem_lookup_iff.mp hl, rfl, hx⟩

theorem any_expired_iff (m : GoMap Invite) (now : Time) :
    m.entries.any (expiredAt now) = true ↔
      ∃ c inv, m.lookup c = some inv ∧ now.After inv.ValidTill = true := by
  rw [List.any_eq_true]
  constructor
  · rintro ⟨e, he, hx⟩
    exact ⟨e.1, e.2, by
      have : e.2 ∈ m.lookup e.1 := AList.mem_lookup_iff.mpr he
      exact this, hx⟩
  · rintro ⟨c, inv, hl, hx⟩
    exact ⟨⟨c, inv⟩, AList.mem_lookup_iff.mp hl, hx⟩

theorem checkInvites_lookup (app : appContext) (now : Time) (c : String) :
    (app.checkInvites now).storage.invites.lookup c
      = (app.storage.invite_path.lookup c).filter (fun inv => !now.After inv.ValidTill) := by
  have h1 : (app.checkInvites now).storage.invites
      = (sweepLoop now (app.loadInvites, false) app.storage.invite_path.entries).1.storage.invites := by
    rw [checkInvites_eq]
    split_ifs <;> rfl
  rw [h1, sweepLoop_lookup]
  have hl : (app.loadInvites, false).1.storage.invites = app.storage.invite_path := rfl
  rw [hl]
  by_cases hx : ∃ e ∈ app.storage.invite_path.entries, e.1 = c ∧ now.After e.2.ValidTill = true
  · rw [if_pos hx]
    obtain ⟨inv, hi, he⟩ := (entries_expired_iff _ now c).mp hx
    rw [hi]
    simp [Option.filter, he]
  · rw [if_neg hx]
    cases hi : app.storage.invite_path.lookup c with
    | none => rfl
    | some inv =>
      have he : now.After inv.ValidTill = false := by
        cases h : now.After inv.ValidTill with
        | false => rfl
        | true => exact absurd ((entries_expired_iff _ now c).mpr ⟨inv, hi, h⟩) hx
      simp [Option.filter, he]

theorem checkInvites_stored (app : appContext) (now : Time) :
    (app.checkInvites now).stored
      = app.stored + (if app.storage.invite_path.entries.any (expiredAt now) then 1 else 0) := by
  rw [checkInvites_eq]
  have hc := sweepLoop_changed now app.storage.invite_path.entries (app.loadInvites, false)
  have hf := (sweepLoop_frame now app.storage.invite_path.entries (app.loadInvites, false)).2.2.2.2.2
  simp only [Bool.false_or] at hc
  rw [hc]
  split_ifs with h
  · simp only [storeInvites]
    rw [hf]; rfl
  · rw [hf]; rfl

theorem checkInvites_synced (app : appContext) (now : Time) :
    (app.checkInvites now).storage.invite_path = (app.checkInvites now).storage.invites := by
  rw [checkInvites_eq]
  have hc := sweepLoop_changed now app.storage.invite_path.entries (app.loadInvites, false)
  simp only [Bool.false_or] at hc
  split_ifs with h
  · rfl
  · rw [hc] at h
    have hall : ∀ e ∈ app.storage.invite_path.entries, now.After e.2.ValidTill = false := by
      intro e he
      cases hx : now.After e.2.ValidTill with
      | false => rfl
      | true =>
        exact absurd (List.any_eq_true.mpr ⟨e, he, hx⟩) h
    rw [sweepLoop_id now _ _ hall]
    rfl

/-- C7: after `checkInvites` the store holds, under each code, the invite it
held before if the current instant is not after its `ValidTill`, unchanged, and
nothing otherwise; every invite the current instant is after has been removed;
`storeInvites` has been called once if at least one invite was removed and not
at all otherwise; and the persisted collection equals the in-memory map. -/
theorem checkInvites_sweeps (app : appContext) (now : Time) :
    (∀ c, (app.checkInvites now).storage.invites.lookup c
      = (app.storage.invite_path.lookup c).filter (fun inv => !now.After inv.ValidTill)) ∧
    (∀ c inv, app.storage.invite_path.lookup c = some inv → now.After inv.ValidTill = true →
      (app.checkInvites now).storage.invites.lookup c = none) ∧
    (∀ c inv, app.storage.invite_path.lookup c = some inv → now.After inv.ValidTill = false →
      (app.checkInvites now).storage.invites.lookup c = some inv) ∧
    ((app.checkInvites now).stored = app.stored + 1 ↔
      ∃ c inv, app.storage.invite_path.lookup c = some inv ∧ now.After inv.ValidTill = true) ∧
    ((app.checkInvites now).stored = app.stored ↔
      ¬ ∃ c inv, app.storage.invite_path.lookup c = some inv ∧ now.After inv.ValidTill = true) ∧
    (app.checkInvites now).storage.invite_path = (app.checkInvites now).storage.invites := by
  refine ⟨checkInvites_lookup app now, ?_, ?_, ?_, ?_, checkInvites_synced app now⟩
  · intro c inv h he
    rw [checkInvites_lookup, h]
    simp [Option.filter, he]
  · intro c inv h he
    rw [checkInvites_lookup, h]
    simp [Option.filter, he]
  · rw [checkInvites_stored, ← any_expired_iff]
    split_ifs with h <;> simp [h]
  · rw [checkInvites_stored, ← any_expired_iff]
    split_ifs with h <;> simp [h]

theorem loadInvites_of_synced (app : appContext)
    (h : app.storage.invite_path = app.storage.invites) : app.loadInvites = app := by
  cases app with
  | mk storage config dp tp sf stored started =>
    cases storage with
    | mk invites invite_path profiles emails emails_path =>
      simp only [loadInvites] at *
      rw [h]

/-- C8: if `checkInvites` is run and then run again at an instant at which
none of the remaining invites has expired, the second run changes nothing:
the context after it is the context after the first run, so the store is the
same, no goroutine is started and `storeInvites` is not called. -/
theorem checkInvites_idempotent (app : appContext) (t1 t2 : Time)
    (h : ∀ c inv, (app.checkInvites t1).storage.invites.lookup c = some inv →
      t2.After inv.ValidTill = false) :
    (app.checkInvites t1).checkInvites t2 = app.checkInvites t1 ∧
    ((app.checkInvites t1).checkInvites t2).storage.invites
      = (app.checkInvites t1).storage.invites ∧
    ((app.checkInvites t1).checkInvites t2).started = (app.checkInvites t1).started ∧
    ((app.checkInvites t1).checkInvites t2).stored = (app.checkInvites t1).stored := by
  have key : (app.checkInvites t1).checkInvites t2 = app.checkInvites t1 := by
    generalize hr : app.checkInvites t1 = r at *
    have hs : r.storage.invite_path = r.storage.invites := by
      rw [← hr]; exact checkInvites_synced app t1
    rw [checkInvites_eq, loadInvites_of_synced r hs]
    have hall : ∀ e ∈ r.storage.invite_path.entries, t2.After e.2.ValidTill = false := by
      intro e he
      apply h e.1 e.2
      rw [← hs]
      have : e.2 ∈ r.storage.invite_path.lookup e.1 := AList.mem_lookup_iff.mpr he
      exact this
    rw [sweepLoop_id t2 _ _ hall]
    simp
  rw [key]
  exact ⟨rfl, rfl, rfl, rfl⟩

theorem mapRange_keys_nodup {β : Type} (m : Option (GoMap β)) :
    ((mapRange m).map Prod.fst).Nodup := by
  cases m with
  | none => simp [mapRange]
  | some m =>
    have h := m.keys_nodup
    simp only [mapRange, List.map_map]
    exact h

theorem mem_mapRange {β : Type} (m : GoMap β) (a : String) (b : β) :
    (a, b) ∈ mapRange (some m) ↔ m.lookup a = some b := by
  simp only [mapRange, List.mem_map]
  constructor
  · rintro ⟨e, he, heq⟩
    obtain ⟨k, v⟩ := e
    simp only [Prod.mk.injEq] at heq
    obtain ⟨h1, h2⟩ := heq
    subst h1; subst h2
    have : v ∈ m.lookup k := AList.mem_lookup_iff.mpr he
    exact this
  · intro h
    exact ⟨⟨a, b⟩, AList.mem_lookup_iff.mp h, rfl⟩

/-- Number of goroutines a flag loop starts for `address`: one if the flag of
that address is true, none otherwise. -/
theorem flagLoop_count (notify : Option (GoMap (GoMap Bool))) (key address : String) :
    (((mapRange notify).filter (fun p => p.2.getBool key)).map Prod.fst).count address
      = if notifyGet notify address key then 1 else 0 := by
  have hnd : (((mapRange notify).filter (fun p => p.2.getBool key)).map Prod.fst).Nodup := by
    have h := mapRange_keys_nodup notify
    exact List.Nodup.sublist (List.Sublist.map _ (List.filter_sublist _)) h
  rw [List.count_eq_of_nodup hnd]
  have hiff : address ∈ ((mapRange notify).filter (fun p => p.2.getBool key)).map Prod.fst ↔
      notifyGet notify address key = true := by
    simp only [List.mem_map, List.mem_filter]
    cases notify with
    | none => simp [mapRange, notifyGet]
    | some m =>
      constructor
      · rintro ⟨p, ⟨hp, hflag⟩, hfst⟩
        obtain ⟨a, s⟩ := p
        simp only at hfst hflag
        subst hfst
        have hl := (mem_mapRange m a s).mp hp
        simp [notifyGet, hl, hflag]
      · intro h
        simp only [notifyGet] at h
        cases hl : m.lookup address with
        | none => rw [hl] at h; simp at h
        | some s =>
          rw [hl] at h
          exact ⟨(address, s), ⟨(mem_mapRange m address s).mpr hl, h⟩, rfl⟩
  by_cases h : notifyGet notify address key = true
  · rw [if_pos (hiff.mpr h), if_pos h]
  · rw [if_neg (fun h2 => h (hiff.mp h2)), if_neg h]

theorem expiryLoop_eq (code : String) (notify : Option (GoMap (GoMap Bool))) :
    expiryLoop code notify
      = (((mapRange notify).filter (fun p => p.2.getBool "notify-expiry")).map Prod.fst).map
          (Task.expiry code) := by
  unfold expiryLoop
  induction mapRange notify with
  | nil => rfl
  | cons p rest ih =>
    by_cases h : p.2.getBool "notify-expiry" = true
    · simp [List.filterMap_cons, List.filter_cons, h, ih]
    · simp [List.filterMap_cons, List.filter_cons, h, ih]

theorem expiryLoop_count (code : String) (notify : Option (GoMap (GoMap Bool)))
    (c address : String) :
    (expiryLoop code notify).count (Task.expiry c address)
      = if code = c ∧ notifyGet notify address "notify-expiry" = true then 1 else 0 := by
  rw [expiryLoop_eq]
  by_cases hc : code = c
  · subst hc
    rw [List.count_map_of_injective _ _ (fun a b h => by injection h)]
    rw [flagLoop_count]
    simp
  · have : ∀ l : List String, (l.map (Task.expiry code)).count (Task.expiry c address) = 0 := by
      intro l
      rw [List.count_eq_zero]
      intro hmem
      obtain ⟨a, _, ha⟩ := List.mem_map.mp hmem
      injection ha with h1 _
      exact hc h1
    rw [this]
    simp [hc]


theorem expiryTasks_count (enabled : Bool) (code : String) (data : Invite) (c address : String) :
    (expiryTasks enabled code data).count (Task.expiry c address)
      = if enabled = true ∧ code = c ∧ notifyGet data.Notify address "notify-expiry" = true
        then 1 else 0 := by
  unfold expiryTasks
  by_cases hen : enabled = true
  · by_cases hlen : mapLen data.Notify = 0
    · have hn : notifyGet data.Notify address "notify-expiry" = false := by
        cases hN : data.Notify with
        | none => rfl
        | some m =>
          rw [hN] at hlen
          simp only [mapLen, List.length_eq_zero] at hlen
          have : m.lookup address = none := by
            rw [AList.lookup_eq_none, AList.mem_keys, AList.keys, hlen]
            simp [List.keys]
          simp [notifyGet, this]
      simp [hen, hlen, hn]
    · simp only [hen, hlen, bne_iff_ne, ne_eq, not_false_eq_true, Bool.true_and, decide_True,
        if_true, true_and]
      exact expiryLoop_count code data.Notify c address
  · simp [hen]

theorem sweepTasks_cons (enabled : Bool) (now : Time) (e : Sigma (fun _ : String => Invite))
    (l : List (Sigma (fun _ : String => Invite))) :
    sweepTasks enabled now (e :: l)
      = (if now.After e.2.ValidTill then expiryTasks enabled e.1 e.2 else [])
          ++ sweepTasks enabled now l := by
  simp [sweepTasks, List.flatMap_cons]

theorem sweepTasks_count_absent (enabled : Bool) (now : Time) (c address : String)
    (l : List (Sigma (fun _ : String => Invite))) (h : c ∉ l.keys) :
    (sweepTasks enabled now l).count (Task.expiry c address) = 0 := by
  induction l with
  | nil => simp [sweepTasks]
  | cons e rest ih =>
    rw [sweepTasks_cons, List.count_append]
    have hne : e.1 ≠ c := by
      intro heq; apply h; simp [List.keys, heq]
    have hrest : c ∉ rest.keys := by
      intro hm; apply h; simp only [List.keys_cons, List.mem_cons]; exact Or.inr hm
    rw [ih hrest]
    split_ifs
    · rw [expiryTasks_count]; simp [hne]
    · simp

theorem sweepTasks_count (enabled : Bool) (now : Time) (c address : String) (inv : Invite)
    (l : List (Sigma (fun _ : String => Invite))) (hnd : l.NodupKeys)
    (hmem : (⟨c, inv⟩ : Sigma (fun _ : String => Invite)) ∈ l) :
    (sweepTasks enabled now l).count (Task.expiry c address)
      = if now.After inv.ValidTill = true ∧ enabled = true ∧
          notifyGet inv.Notify address "notify-expiry" = true then 1 else 0 := by
  induction l with
  | nil => simp at hmem
  | cons e rest ih =>
    rw [sweepTasks_cons, List.count_append]
    rw [List.nodupKeys_cons] at hnd
    obtain ⟨hnot, hrest⟩ := hnd
    rcases List.mem_cons.mp hmem with heq | hin
    · subst heq
      rw [sweepTasks_count_absent enabled now c address rest hnot]
      by_cases hx : now.After inv.ValidTill = true
      · simp only [hx, if_true, expiryTasks_count, true_and, Nat.add_zero]
      · simp [hx]
    · have hne : e.1 ≠ c := by
        intro heq
        apply hnot
        rw [heq]
        exact List.mem_keys_of_mem hin
      rw [ih hrest hin]
      split_ifs <;> simp [expiryTasks_count, hne]

theorem notifyAddress_frame (app : appContext) (jfId : String) :
    (app.notifyAddress jfId).2.started = app.started ∧
    (app.notifyAddress jfId).2.stored = app.stored ∧
    (app.notifyAddress jfId).2.storage.invites = app.storage.invites ∧
    (app.notifyAddress jfId).2.storage.invite_path = app.storage.invite_path := by
  unfold notifyAddress
  split_ifs <;> simp [loadEmails]

theorem getInvitesStep_frame (ct : Time) (jfId : String) (st : appContext × List inviteEntry)
    (e : Sigma (fun _ : String => Invite)) :
    (getInvitesStep ct jfId st e).1.started = st.1.started ∧
    (getInvitesStep ct jfId st e).1.stored = st.1.stored ∧
    (getInvitesStep ct jfId st e).1.storage.invites = st.1.storage.invites ∧
    (getInvitesStep ct jfId st e).1.storage.invite_path = st.1.storage.invite_path ∧
    (getInvitesStep ct jfId st e).2.map (fun i => i.code)
      = st.2.map (fun i => i.code) ++ [e.1] := by
  simp only [getInvitesStep, List.map_append, List.map_cons, List.map_nil, and_true]
  split_ifs
  · exact notifyAddress_frame st.1 jfId
  · exact ⟨rfl, rfl, rfl, rfl⟩

theorem getInvitesLoop_frame (ct : Time) (jfId : String)
    (l : List (Sigma (fun _ : String => Invite))) :
    ∀ (st : appContext × List inviteEntry),
      (l.foldl (getInvitesStep ct jfId) st).1.started = st.1.started ∧
      (l.foldl (getInvitesStep ct jfId) st).1.stored = st.1.stored ∧
      (l.foldl (getInvitesStep ct jfId) st).1.storage.invites = st.1.storage.invites ∧
      (l.foldl (getInvitesStep ct jfId) st).1.storage.invite_path = st.1.storage.invite_path ∧
      (l.foldl (getInvitesStep ct jfId) st).2.map (fun i => i.code)
        = st.2.map (fun i => i.code) ++ l.map (fun e => e.1) := by
  induction l with
  | nil => intro st; simp
  | cons e rest ih =>
    intro st
    rw [List.foldl_cons]
    obtain ⟨a1, a2, a3, a4, a5⟩ := ih (getInvitesStep ct jfId st e)
    obtain ⟨b1, b2, b3, b4, b5⟩ := getInvitesStep_frame ct jfId st e
    refine ⟨a1.trans b1, a2.trans b2, a3.trans b3, a4.trans b4, ?_⟩
    rw [a5, b5]
    simp

theorem loadInvites_checkInvites (app : appContext) (now : Time) :
    app.loadInvites.checkInvites now = app.checkInvites now := rfl

theorem checkInvites_started (app : appContext) (now : Time) :
    (app.checkInvites now).started
      = app.started ++ sweepTasks app.config.notifications_enabled now
          app.storage.invite_path.entries := by
  rw [checkInvites_eq]
  have h := sweepLoop_started now app.storage.invite_path.entries (app.loadInvites, false)
  split_ifs
  · simp only [storeInvites]
    rw [h]; rfl
  · rw [h]; rfl

theorem GetInvites_listed (app : appContext) (ct sweep : Time) (jfId : String) :
    listedCodes (app.GetInvites ct sweep jfId).1 = (app.checkInvites sweep).storage.invites.keys := by
  simp only [GetInvites, listedCodes, loadInvites_checkInvites]
  rw [(getInvitesLoop_frame ct jfId _ _).2.2.2.2]
  simp [AList.keys, List.keys]

theorem GetInvites_started (app : appContext) (ct sweep : Time) (jfId : String) :
    (app.GetInvites ct sweep jfId).2.started
      = app.started ++ sweepTasks app.config.notifications_enabled sweep
          app.storage.invite_path.entries := by
  simp only [GetInvites, loadInvites_checkInvites]
  rw [(getInvitesLoop_frame ct jfId _ _).1, checkInvites_started]

/-- What `GetInvites` does for an expired invite, as far as the `go`
statements go: with notifications enabled, an invite of the store that the
sweep finds expired is not in the returned list, and among the goroutines the
request starts there is, for each address, exactly one expiry goroutine for
this invite started while the loop variable holds that address if
`Notify[address]["notify-expiry"]` is true, and none otherwise. -/
theorem GetInvites_expired (app : appContext) (ct sweep : Time) (jfId : String)
    (c : String) (inv : Invite)
    (hen : app.config.notifications_enabled = true)
    (h : app.storage.invite_path.lookup c = some inv)
    (he : sweep.After inv.ValidTill = true) :
    c ∉ listedCodes (app.GetInvites ct sweep jfId).1 ∧
    (app.GetInvites ct sweep jfId).2.started
      = app.started ++ sweepTasks true sweep app.storage.invite_path.entries ∧
    ∀ address,
      (sweepTasks true sweep app.storage.invite_path.entries).count (Task.expiry c address)
        = if notifyGet inv.Notify address "notify-expiry" then 1 else 0 := by
  refine ⟨?_, ?_, ?_⟩
  · rw [GetInvites_listed, ← AList.mem_keys, ← AList.lookup_eq_none, checkInvites_lookup, h]
    simp [Option.filter, he]
  · rw [GetInvites_started, hen]
  · intro address
    rw [sweepTasks_count true sweep c address inv _ app.storage.invite_path.nodupKeys
      (AList.mem_lookup_iff.mp h)]
    simp [he]

/-! ### Claims about the sweep, `NewUser` and `GetInvites` -/


/-- C7, instantiated: of an invite valid until second 100 and one valid
until second 300, the sweep at second 200 removes the first and persists
once. -/
theorem checkInvites_sweeps_witness :
    ((exApp exStoreTwo).checkInvites ⟨200, 0, UTC⟩).storage.invites.lookup "old" = none ∧
    ((exApp exStoreTwo).checkInvites ⟨200, 0, UTC⟩).stored = 1 :=
  have h := checkInvites_sweeps (exApp exStoreTwo) ⟨200, 0, UTC⟩
  ⟨h.2.1 "old" (exInvite 1 false) (by decide) (by decide),
    h.2.2.2.1.mpr ⟨"old", exInvite 1 false, by decide, by decide⟩⟩

/-- After the sweep of `exStoreTwo` at second 200 the remaining invite is
still valid at second 250. -/
theorem exStoreTwo_remaining (c : String) (inv : Invite)
    (h : ((exApp exStoreTwo).checkInvites ⟨200, 0, UTC⟩).storage.invites.lookup c = some inv) :
    Time.After ⟨250, 0, UTC⟩ inv.ValidTill = false := by
  have hent : ((exApp exStoreTwo).checkInvites ⟨200, 0, UTC⟩).storage.invites.entries
      = [⟨"new", { exInvite 1 false with ValidTill := ⟨300, 0, UTC⟩ }⟩] := by decide
  have hm := AList.mem_lookup_iff.mp h
  rw [hent] at hm
  simp only [List.mem_singleton, Sigma.mk.inj_iff, heq_eq_eq] at hm
  obtain ⟨_, h2⟩ := hm
  subst h2
  decide

/-- C8, instantiated: a sweep at second 200 followed by one at second 250. -/
theorem checkInvites_idempotent_witness :
    (((exApp exStoreTwo).checkInvites ⟨200, 0, UTC⟩).checkInvites ⟨250, 0, UTC⟩).stored
      = ((exApp exStoreTwo).checkInvites ⟨200, 0, UTC⟩).stored :=
  (checkInvites_idempotent (exApp exStoreTwo) ⟨200, 0, UTC⟩ ⟨250, 0, UTC⟩
    exStoreTwo_remaining).2.2.2

theorem createdLoop_eq (code username : String) (notify : Option (GoMap (GoMap Bool))) :
    createdLoop code username notify
      = (((mapRange notify).filter (fun p => p.2.getBool "notify-creation")).map Prod.fst).map
          (Task.created code username) := by
  unfold createdLoop
  induction mapRange notify with
  | nil => rfl
  | cons p rest ih =>
    by_cases h : p.2.getBool "notify-creation" = true
    · simp [List.filterMap_cons, List.filter_cons, h, ih]
    · simp [List.filterMap_cons, List.filter_cons, h, ih]

theorem createdLoop_count (code username : String) (notify : Option (GoMap (GoMap Bool)))
    (address : String) :
    (createdLoop code username notify).count (Task.created code username address)
      = if notifyGet notify address "notify-creation" then 1 else 0 := by
  rw [createdLoop_eq, List.count_map_of_injective _ _ (fun a b h => by injection h),
    flagLoop_count]

/-- A redemption through `NewUser` that is not the last use of the invite:
with notifications enabled, an unexpired invite with `RemainingUses ≠ 1`, a
valid password, a free username and a successful account creation, the request
starts exactly the goroutines of the creation loop over the invite's `Notify`:
for each address one if `Notify[address]["notify-creation"]` is true, and none
otherwise. -/
theorem NewUser_notifies (app : appContext) (t1 t2 : Time) (req : newUserReq)
    (ext : Collaborators) (inv : Invite)
    (hen : app.config.notifications_enabled = true)
    (h : app.storage.invite_path.lookup req.Code = some inv)
    (h1 : t1.After inv.ValidTill = false) (h2 : t2.After inv.ValidTill = false)
    (hv : (ext.validate req.Password).all (fun v => v.2) = true)
    (hu : ext.userByName req.Username = false)
    (hs : (ext.newUser req.Username req.Password).2.1 = 200 ∨
      (ext.newUser req.Username req.Password).2.1 = 204)
    (herr : (ext.newUser req.Username req.Password).2.2 = false)
    (hr : inv.RemainingUses ≠ 1) :
    (app.NewUser t1 t2 req ext).2.started
      = app.started ++ createdLoop req.Code req.Username inv.Notify ∧
    ∀ address,
      (createdLoop req.Code req.Username inv.Notify).count
          (Task.created req.Code req.Username address)
        = if notifyGet inv.Notify address "notify-creation" then 1 else 0 := by
  refine ⟨?_, fun address => createdLoop_count _ _ _ address⟩
  have c1 := checkInvite_peek app t1 req.Code "" inv h h1
  have hl : app.loadInvites.storage.invite_path.lookup req.Code = some inv := h
  have c2 := checkInvite_use app.loadInvites t2 req.Code req.Username inv hl h2 hr
  have hstat : (!((ext.newUser req.Username req.Password).2.1 == 200 ||
      (ext.newUser req.Username req.Password).2.1 == 204) ||
      (ext.newUser req.Username req.Password).2.2) = false := by
    rcases hs with hs | hs <;> simp [hs, herr]
  simp only [NewUser, c1, hv, hu, hstat, c2, Bool.not_true, Bool.false_eq_true, if_false,
    Bool.not_false]
  have hlook : ((app.loadInvites.loadInvites.setInvite req.Code
      (consumed app.loadInvites t2 req.Username inv)).storeInvites).storage.invites.lookup req.Code
      = some (consumed app.loadInvites t2 req.Username inv) := by
    simp [storeInvites, setInvite, loadInvites]
  have hcfg : ((app.loadInvites.loadInvites.setInvite req.Code
      (consumed app.loadInvites t2 req.Username inv)).storeInvites).config = app.config := rfl
  rw [hlook, hcfg, hen]
  simp only [Option.getD_some, if_true]
  have hN : (consumed app.loadInvites t2 req.Username inv).Notify = inv.Notify := rfl
  rw [hN]
  split_ifs <;> rfl

/-- The redemption of `exStoreCreation 2` at seconds 50 and 60, an instance
of `NewUser_notifies`. -/
theorem NewUser_notifies_witness :
    ((exApp (exStoreCreation 2)).NewUser ⟨50, 0, UTC⟩ ⟨60, 0, UTC⟩ exReq exExt).2.started
      = [] ++ createdLoop "abc" "bob" (some exWantsCreation) :=
  (NewUser_notifies (exApp (exStoreCreation 2)) ⟨50, 0, UTC⟩ ⟨60, 0, UTC⟩ exReq exExt
    { exInvite 2 false with Notify := some exWantsCreation }
    (by decide) rfl (by decide) (by decide) (by decide) (by decide)
    (Or.inl (by decide)) (by decide) (by decide)).1

/-- C9 at its failing input: the invite `abc` is unexpired, has one use left
and `Notify["admin@example.org"]["notify-creation"] == true`, notifications are
enabled, and the redemption succeeds (answer 200 with the validation). The
consuming `checkInvite` of line 274 deletes the invite, line 275 then reads the
zero `Invite`, whose `Notify` is nil, and no goroutine is started. With two
uses left the same request starts the goroutine for the address. -/
theorem NewUser_last_use_silent :
    (exApp (exStoreCreation 1)).config.notifications_enabled = true ∧
    (exStoreCreation 1).lookup "abc"
      = some { exInvite 1 false with Notify := some exWantsCreation } ∧
    notifyGet (some exWantsCreation) "admin@example.org" "notify-creation" = true ∧
    ((exApp (exStoreCreation 1)).NewUser ⟨50, 0, UTC⟩ ⟨60, 0, UTC⟩ exReq exExt).1
      = Response.validation 200 [("length", true)] ∧
    ((exApp (exStoreCreation 1)).NewUser ⟨50, 0, UTC⟩ ⟨60, 0, UTC⟩ exReq exExt).2.started
      = [] ∧
    ((exApp (exStoreCreation 2)).NewUser ⟨50, 0, UTC⟩ ⟨60, 0, UTC⟩ exReq exExt).2.started
      = [Task.created "abc" "bob" "admin@example.org"] :=
  ⟨by decide, rfl, by decide, by decide, by decide, by decide⟩

/-- The listing of `exStoreExpiry` at second 200, an instance of
`GetInvites_expired`: the expired invite is not listed. -/
theorem GetInvites_expired_witness :
    "abc" ∉ listedCodes ((exApp exStoreExpiry).GetInvites ⟨200, 0, UTC⟩ ⟨200, 0, UTC⟩ "").1 :=
  (GetInvites_expired (exApp exStoreExpiry) ⟨200, 0, UTC⟩ ⟨200, 0, UTC⟩ "" "abc"
    { exInvite 1 false with Notify := some exTwoAddresses }
    (by decide) rfl (by decide)).1

/-- C10 at its failing input: the expired invite `abc` has two addresses in
`Notify`, visited in the order `a@example.org` (expiry flag true),
`b@example.org` (expiry flag false). `GetInvites` starts one goroutine, in the
iteration for `a@example.org`; the loop variable `address` that the goroutine
reads holds `b@example.org` from the next iteration on and after the loop. -/
theorem GetInvites_expiry_shared_address :
    ((exApp exStoreExpiry).GetInvites ⟨200, 0, UTC⟩ ⟨200, 0, UTC⟩ "").2.started
      = [Task.expiry "abc" "a@example.org"] ∧
    loopAddress (some exTwoAddresses) 0 = some "a@example.org" ∧
    loopAddress (some exTwoAddresses) 1 = some "b@example.org" ∧
    loopAddress (some exTwoAddresses) 2 = some "b@example.org" ∧
    notifyGet (some exTwoAddresses) "b@example.org" "notify-expiry" = false := by
  decide

/-! ### Further claims about `checkInvite` -/


/-- C15: a call `checkInvite(code, false, username)` on a code that is absent
or whose invite is not expired leaves the store as it was: the persisted
collection is unchanged, the in-memory map after the call is that collection
(every code looks up as before, with the same `RemainingUses` and `UsedBy`),
`storeInvites` is not called and no goroutine is started. When the in-memory
map agreed with the persisted collection before the call, the whole context is
unchanged. -/
theorem checkInvite_validate_only (app : appContext) (now : Time) (code username : String)
    (h : app.storage.invite_path.lookup code = none ∨
      ∃ inv, app.storage.invite_path.lookup code = some inv ∧ now.After inv.ValidTill = false) :
    (app.checkInvite now code false username).2.storage.invite_path = app.storage.invite_path ∧
    (app.checkInvite now code false username).2.storage.invites = app.storage.invite_path ∧
    (∀ c, (app.checkInvite now code false username).2.storage.invites.lookup c
      = app.storage.invite_path.lookup c) ∧
    (app.checkInvite now code false username).2.stored = app.stored ∧
    (app.checkInvite now code false username).2.started = app.started ∧
    (app.storage.invites = app.storage.invite_path →
      (app.checkInvite now code false username).2 = app) := by
  have key : (app.checkInvite now code false username).2 = app.loadInvites := by
    rcases h with h | ⟨inv, h, he⟩
    · rw [checkInvite_absent app now code false username h]
    · rw [checkInvite_peek app now code username inv h he]
  rw [key]
  refine ⟨rfl, rfl, fun _ => rfl, rfl, rfl, ?_⟩
  intro hs
  exact loadInvites_of_synced app hs.symm

/-- C15, instantiated: validating the single-use invite `abc` at second 50. -/
theorem checkInvite_validate_only_witness :
    ((exApp (AList.singleton "abc" (exInvite 1 false))).checkInvite
        ⟨50, 0, UTC⟩ "abc" false "").2.storage.invites.lookup "abc"
      = some (exInvite 1 false) ∧
    ((exApp (AList.singleton "abc" (exInvite 1 false))).checkInvite
        ⟨50, 0, UTC⟩ "abc" false "").2.stored = 0 :=
  have h := checkInvite_validate_only (exApp (AList.singleton "abc" (exInvite 1 false)))
    ⟨50, 0, UTC⟩ "abc" "" (Or.inr ⟨exInvite 1 false, by decide, by decide⟩)
  ⟨(h.2.2.1 "abc").trans (by decide), h.2.2.2.1⟩

theorem expire_lookup_ne (app : appContext) (code : String) (data : Invite) (c : String)
    (hc : c ≠ code) :
    (app.expire code data).storage.invites.lookup c = app.storage.invites.lookup c := by
  rw [expire_invites, AList.lookup_erase_ne hc]

/-- C16: when the store holds under `code` an invite whose `ValidTill` the
current instant is after, `checkInvite(code, used, username)`, for either value
of `used`, returns false, leaves the store (in memory and persisted) equal to
the old one without `code`, so that every other code looks up the very invite
it held before, `UsedBy` included, and calls `storeInvites` once. -/
theorem checkInvite_expired_removes (app : appContext) (now : Time) (code : String)
    (used : Bool) (username : String) (inv : Invite)
    (h : app.storage.invite_path.lookup code = some inv)
    (he : now.After inv.ValidTill = true) :
    (app.checkInvite now code used username).1 = false ∧
    (app.checkInvite now code used username).2.storage.invites
      = app.storage.invite_path.erase code ∧
    (app.checkInvite now code used username).2.storage.invite_path
      = app.storage.invite_path.erase code ∧
    (app.checkInvite now code used username).2.storage.invites.lookup code = none ∧
    (∀ c, c ≠ code → (app.checkInvite now code used username).2.storage.invites.lookup c
      = app.storage.invite_path.lookup c) ∧
    (app.checkInvite now code used username).2.stored = app.stored + 1 := by
  rw [checkInvite_expired app now code used username inv h he]
  have hinv : (app.loadInvites.expire code inv).storage.invites
      = app.storage.invite_path.erase code := by
    rw [expire_invites]; rfl
  have hst := (expire_frame app.loadInvites code inv).2.2.2.2.2
  refine ⟨rfl, ?_, ?_, ?_, ?_, ?_⟩
  · simp only [storeInvites]; exact hinv
  · simp only [storeInvites]; exact hinv
  · simp only [storeInvites]; rw [hinv]; exact AList.lookup_erase code _
  · intro c hc
    simp only [storeInvites]; rw [hinv]; exact AList.lookup_erase_ne hc
  · simp only [storeInvites]; rw [hst]; rfl

/-- C16, instantiated: of `exStoreTwo`, the invite `old` (valid until second
100) is checked at second 200. -/
theorem checkInvite_expired_removes_witness :
    ((exApp exStoreTwo).checkInvite ⟨200, 0, UTC⟩ "old" true "bob").1 = false ∧
    ((exApp exStoreTwo).checkInvite ⟨200, 0, UTC⟩ "old" true "bob").2.stored = 1 :=
  have h := checkInvite_expired_removes (exApp exStoreTwo) ⟨200, 0, UTC⟩ "old" true "bob"
    (exInvite 1 false) (by decide) (by decide)
  ⟨h.1, h.2.2.2.2.2⟩

/-! ### `GenerateInvite` and `SetProfile` -/

theorem GenerateInvite_eq (app : appContext) (now : Time) (req : generateInviteReq)
    (draws : List String) (mailed : Bool) (code : String) (hc : inviteCode draws = some code) :
    app.GenerateInvite now req draws mailed
      = some (Response.success 200 true,
          (app.loadInvites.setInvite code (generatedInvite app now req mailed)).storeInvites) := by
  have hcfg : app.loadInvites.config = app.config := rfl
  have hprof : app.loadInvites.storage.profiles = app.storage.profiles := rfl
  simp only [GenerateInvite, hc, generatedInvite, Invite.zero, hcfg, hprof]
  cases h1 : req.MultipleUses <;> cases h2 : req.NoLimit <;> cases h3 : mailed <;>
    cases h4 : (req.Email != "" && app.config.invite_emails_enabled) <;>
    cases h5 : (req.Profile != "") <;>
    cases h6 : (app.storage.profiles.lookup req.Profile).isSome <;>
    simp

/-- C12: whenever one of the drawn codes does not begin with a digit,
`GenerateInvite` answers 200 and stores, in memory and persisted, under the
code chosen, an invite that has `(RemainingUses, NoLimit) == (1, false)` if
multiple-uses is false, whatever no-limit and remaining-uses are, and has
`NoLimit == true` with `RemainingUses == 0` if multiple-uses and no-limit are
both true. -/
theorem GenerateInvite_uses (app : appContext) (now : Time) (req : generateInviteReq)
    (draws : List String) (mailed : Bool) (code : String) (hc : inviteCode draws = some code) :
    ∃ r, app.GenerateInvite now req draws mailed = some r ∧
      r.1 = Response.success 200 true ∧
      ∃ inv, r.2.storage.invites.lookup code = some inv ∧
        r.2.storage.invite_path.lookup code = some inv ∧
        (req.MultipleUses = false → inv.RemainingUses = 1 ∧ inv.NoLimit = false) ∧
        (req.MultipleUses = true → req.NoLimit = true →
          inv.NoLimit = true ∧ inv.RemainingUses = 0) := by
  refine ⟨_, GenerateInvite_eq app now req draws mailed code hc, rfl,
    generatedInvite app now req mailed, ?_, ?_, ?_, ?_⟩
  · simp [storeInvites, setInvite]
  · simp [storeInvites, setInvite]
  · intro h; simp [generatedInvite, h]
  · intro h1 h2; simp [generatedInvite, h1, h2]

/-- C12, instantiated: the first drawn code begins with a digit, the second
is taken. -/
theorem GenerateInvite_uses_witness :
    ∃ r, (exApp ∅).GenerateInvite ⟨50, 0, UTC⟩ exGenReq ["4abc", "xyz"] true = some r ∧
      r.1 = Response.success 200 true ∧
      ∃ inv, r.2.storage.invites.lookup "xyz" = some inv ∧
        r.2.storage.invite_path.lookup "xyz" = some inv ∧
        (exGenReq.MultipleUses = false → inv.RemainingUses = 1 ∧ inv.NoLimit = false) ∧
        (exGenReq.MultipleUses = true → exGenReq.NoLimit = true →
          inv.NoLimit = true ∧ inv.RemainingUses = 0) :=
  GenerateInvite_uses (exApp ∅) ⟨50, 0, UTC⟩ exGenReq ["4abc", "xyz"] true "xyz" (by decide)

theorem SetProfile_unknown_profile (app : appContext) (req : profileReq)
    (h : app.storage.profiles.lookup req.Profile = none) (hne : req.Profile ≠ "") :
    app.SetProfile req = (Response.message 500 "Profile not found", app) := by
  simp [SetProfile, h, hne]

theorem SetProfile_known (app : appContext) (req : profileReq)
    (h : (app.storage.profiles.lookup req.Profile).isSome = true ∨ req.Profile = "") :
    app.SetProfile req
      = (Response.success 200 true,
          (app.setInvite req.Invite
            { (app.storage.invites.lookup req.Invite).getD Invite.zero with
              Profile := req.Profile }).storeInvites) := by
  have hc : ((app.storage.profiles.lookup req.Profile).isNone && req.Profile != "") = false := by
    rcases h with h | h
    · cases hl : app.storage.profiles.lookup req.Profile with
      | none => rw [hl] at h; simp at h
      | some p => simp
    · simp [h]
  simp [SetProfile, hc]

/-- C13 at its failing input: the store holds the invite `abc` only, and the
request names the code `nope` with the empty profile. `SetProfile` answers 200,
stores the zero `Invite` under `nope` (`RemainingUses == 0`, `NoLimit == false`,
`ValidTill` the zero time) in memory and persisted, and calls `storeInvites`.
With a profile that does not exist the request is refused and nothing
changes. -/
theorem SetProfile_unknown_code_adds :
    (exLoaded (AList.singleton "abc" (exInvite 1 false))).storage.invites.lookup "nope" = none ∧
    ((exLoaded (AList.singleton "abc" (exInvite 1 false))).SetProfile ⟨"nope", ""⟩).1
      = Response.success 200 true ∧
    ((exLoaded (AList.singleton "abc" (exInvite 1 false))).SetProfile
        ⟨"nope", ""⟩).2.storage.invites.lookup "nope" = some Invite.zero ∧
    ((exLoaded (AList.singleton "abc" (exInvite 1 false))).SetProfile
        ⟨"nope", ""⟩).2.storage.invite_path.lookup "nope" = some Invite.zero ∧
    ((exLoaded (AList.singleton "abc" (exInvite 1 false))).SetProfile ⟨"nope", ""⟩).2.stored
      = 1 ∧
    ((exLoaded (AList.singleton "abc" (exInvite 1 false))).SetProfile ⟨"abc", "Kids"⟩).1
      = Response.message 500 "Profile not found" ∧
    ((exLoaded (AList.singleton "abc" (exInvite 1 false))).SetProfile
        ⟨"abc", "Kids"⟩).2.stored = 0 := by
  decide

/-! ### What keeps the invariant of the store -/

theorem goodStore_empty : goodStore ∅ := by
  intro c inv h
  simp at h

theorem goodStore_erase (m : GoMap Invite) (code : String) (h : goodStore m) :
    goodStore (m.erase code) := by
  intro c inv hl
  by_cases hc : c = code
  · subst hc
    rw [AList.lookup_erase] at hl
    cases hl
  · rw [AList.lookup_erase_ne hc] at hl
    exact h c inv hl

theorem goodStore_insert (m : GoMap Invite) (code : String) (new : Invite) (h : goodStore m)
    (hn : goodInvite new) : goodStore (m.insert code new) := by
  intro c inv hl
  by_cases hc : c = code
  · subst hc
    rw [AList.lookup_insert] at hl
    cases hl
    exact hn
  · rw [AList.lookup_insert_ne hc] at hl
    exact h c inv hl

theorem goodInvite_consumed (app : appContext) (now : Time) (username : String) (inv : Invite)
    (h : goodInvite inv) (h1 : inv.RemainingUses ≠ 1) :
    goodInvite (consumed app now username inv) := by
  obtain ⟨a, b, c⟩ := h
  unfold goodInvite consumed
  simp only
  by_cases h0 : inv.RemainingUses = 0
  · simp only [h0, bne_self_eq_false, Bool.false_eq_true, if_false]
    refine ⟨by norm_num, by norm_num, ?_⟩
    intro hn
    exact c ⟨h0, hn.2⟩
  · have hb : (inv.RemainingUses != 0) = true := by simp [h0]
    simp only [hb, if_true]
    unfold wrapInt64
    refine ⟨by omega, by omega, ?_⟩
    intro hn
    have := hn.1
    omega

theorem goodContext_loadInvites (app : appContext) (h : goodContext app) :
    goodContext app.loadInvites := ⟨h.2, h.2⟩

theorem goodContext_checkInvite (app : appContext) (now : Time) (code : String) (used : Bool)
    (username : String) (h : goodContext app) :
    goodContext (app.checkInvite now code used username).2 := by
  have hs := checkInvite_synced app now code used username
  suffices hg : goodStore (app.checkInvite now code used username).2.storage.invites by
    exact ⟨hg, by rw [← hs]; exact hg⟩
  cases hl : app.storage.invite_path.lookup code with
  | none => rw [checkInvite_absent app now code used username hl]; exact h.2
  | some inv =>
    cases he : now.After inv.ValidTill with
    | true =>
      rw [checkInvite_expired app now code used username inv hl he]
      show goodStore (app.loadInvites.expire code inv).storage.invites
      rw [expire_invites]
      exact goodStore_erase _ _ h.2
    | false =>
      cases used with
      | false => rw [checkInvite_peek app now code username inv hl he]; exact h.2
      | true =>
        by_cases h1 : inv.RemainingUses = 1
        · rw [checkInvite_last app now code username inv hl he h1]
          exact goodStore_erase _ _ h.2
        · rw [checkInvite_use app now code username inv hl he h1]
          exact goodStore_insert _ _ _ h.2 (goodInvite_consumed app now username inv
            (h.2 code inv hl) h1)

theorem goodContext_checkInvites (app : appContext) (now : Time) (h : goodContext app) :
    goodContext (app.checkInvites now) := by
  have hg : goodStore (app.checkInvites now).storage.invites := by
    intro c inv hl
    rw [checkInvites_lookup] at hl
    cases hp : app.storage.invite_path.lookup c with
    | none => rw [hp] at hl; simp [Option.filter] at hl
    | some old =>
      rw [hp] at hl
      simp only [Option.filter] at hl
      split_ifs at hl
      cases hl
      exact h.2 c _ hp
  exact ⟨hg, by rw [checkInvites_synced]; exact hg⟩

theorem goodInvite_generated (app : appContext) (now : Time) (req : generateInviteReq)
    (mailed : Bool) (h : admissible req) : goodInvite (generatedInvite app now req mailed) := by
  obtain ⟨_, _, _, _, _, _, h0, h1, h2⟩ := h
  unfold goodInvite generatedInvite
  simp only
  cases hm : req.MultipleUses <;> cases hn : req.NoLimit <;> simp
  · have := h2 hm hn
    norm_num at h1 ⊢
    exact ⟨by omega, h1, this⟩

theorem goodContext_GenerateInvite (app : appContext) (now : Time) (req : generateInviteReq)
    (draws : List String) (mailed : Bool) (r : Response × appContext)
    (hr : app.GenerateInvite now req draws mailed = some r) (hreq : admissible req)
    (h : goodContext app) : goodContext r.2 := by
  cases hc : inviteCode draws with
  | none => simp [GenerateInvite, hc] at hr
  | some code =>
    rw [GenerateInvite_eq app now req draws mailed code hc] at hr
    cases hr
    have hg : goodStore (app.loadInvites.setInvite code
        (generatedInvite app now req mailed)).storage.invites :=
      goodStore_insert _ _ _ h.2 (goodInvite_generated app now req mailed hreq)
    exact ⟨hg, hg⟩

theorem goodContext_SetProfile (app : appContext) (req : profileReq)
    (hcode : (app.storage.invites.lookup req.Invite).isSome = true)
    (h : goodContext app) : goodContext (app.SetProfile req).2 := by
  by_cases hp : ((app.storage.profiles.lookup req.Profile).isNone && req.Profile != "") = true
  · simp only [SetProfile, hp, if_true]
    exact h
  · simp only [SetProfile, hp, if_false]
    cases hl : app.storage.invites.lookup req.Invite with
    | none => rw [hl] at hcode; simp at hcode
    | some inv =>
      have hg : goodStore (app.setInvite req.Invite
          { (some inv).getD Invite.zero with Profile := req.Profile }).storage.invites :=
        goodStore_insert _ _ _ h.1 (h.1 req.Invite inv hl)
      exact ⟨hg, hg⟩

theorem goodContext_DeleteInvite (app : appContext) (req : deleteReq) (h : goodContext app) :
    goodContext (app.DeleteInvite req).2 := by
  by_cases hp : (app.storage.invites.lookup req.Code).isSome = true
  · simp only [DeleteInvite, hp, if_true]
    have hg : goodStore (app.deleteInvite req.Code).storage.invites :=
      goodStore_erase _ _ h.1
    exact ⟨hg, hg⟩
  · simp only [DeleteInvite, hp, if_false]
    exact h

theorem goodContext_ite (c1 c2 : Bool) (a b : appContext) (ha : goodContext a)
    (hb : goodContext b) : goodContext (if c1 then a else if c2 then a else b) := by
  cases c1 <;> cases c2 <;> simp [ha, hb]

theorem goodContext_setNotifyLoop (jfId : String)
    (l : List (Sigma (fun _ : String => GoMap Bool))) :
    ∀ (st : appContext × Bool), goodContext st.1 →
      goodContext (setNotifyLoop jfId l st).2.1 := by
  induction l with
  | nil => intro st h; exact h
  | cons e rest ih =>
    intro st h
    have hload : goodContext st.1.loadInvites.loadEmails := ⟨h.2, h.2⟩
    rw [setNotifyLoop]
    simp only
    cases hl : st.1.loadInvites.loadEmails.storage.invites.lookup e.1 with
    | none => exact hload
    | some invite =>
      simp only
      cases ha : st.1.loadInvites.loadEmails.setNotifyAddress jfId with
      | none => exact hload
      | some address =>
        simp only
        apply ih
        have hgi := hload.1 e.1 invite hl
        have hset : ∀ n : Option (GoMap (GoMap Bool)),
            goodContext (st.1.loadInvites.loadEmails.setInvite e.1 { invite with Notify := n }) :=
          fun n => ⟨goodStore_insert _ _ _ hload.1 hgi, hload.2⟩
        exact goodContext_ite _ _ _ _ (hset _) hload

theorem goodContext_SetNotify (app : appContext) (req : GoMap (GoMap Bool)) (jfId : String)
    (h : goodContext app) : goodContext (app.SetNotify req jfId).2 := by
  have hg := goodContext_setNotifyLoop jfId req.entries (app, false) h
  unfold SetNotify
  simp only
  split
  · exact hg
  · split_ifs
    · exact ⟨hg.1, hg.1⟩
    · exact hg

/-! ### The invariant of the store -/

theorem goodContext_Step (app next : appContext) (hs : Step app next) (h : goodContext app) :
    goodContext next := by
  cases hs with
  | generate now req draws mailed r hreq hr =>
    exact goodContext_GenerateInvite app now req draws mailed r hr hreq h
  | check now code used username => exact goodContext_checkInvite app now code used username h
  | sweep now => exact goodContext_checkInvites app now h
  | profile req hcode => exact goodContext_SetProfile app req hcode h
  | notify req jfId => exact goodContext_SetNotify app req jfId h
  | delete req => exact goodContext_DeleteInvite app req h

theorem goodContext_Reachable (app : appContext) (h : Reachable app) : goodContext app := by
  induction h with
  | empty app hi hp =>
    refine ⟨?_, ?_⟩
    · rw [hi]; exact goodStore_empty
    · rw [hp]; exact goodStore_empty
  | step app next _ hs ih => exact goodContext_Step app next hs ih

/-- C11, amended: in every context reached from the empty store by any
sequence of `GenerateInvite` (request fields Go `int`s that are not negative,
and `remaining-uses` not 0 when `multiple-uses` is true and `no-limit` is
false), `checkInvite`, `checkInvites`, `SetProfile` on a code the store holds,
`SetNotify` and `DeleteInvite`, no invite stored, in memory or persisted, has
`RemainingUses == 0` together with `NoLimit == false`. -/
theorem store_invariant (app : appContext) (h : Reachable app) (c : String) (inv : Invite)
    (hl : app.storage.invites.lookup c = some inv ∨
      app.storage.invite_path.lookup c = some inv) :
    ¬ (inv.RemainingUses = 0 ∧ inv.NoLimit = false) := by
  have hg := goodContext_Reachable app h
  rcases hl with hl | hl
  · exact (hg.1 c inv hl).2.2
  · exact (hg.2 c inv hl).2.2

/-- C11, instantiated: the context after one `GenerateInvite` of a single-use
invite from the empty store is reached, it holds the invite under `xyz`, and
that invite is not the pair (0, false). -/
theorem store_invariant_witness :
    Reachable exGenerated ∧
    exGenerated.storage.invite_path.lookup "xyz"
      = some (generatedInvite (exApp ∅) ⟨50, 0, UTC⟩ exGenReq true) ∧
    ¬ ((generatedInvite (exApp ∅) ⟨50, 0, UTC⟩ exGenReq true).RemainingUses = 0 ∧
      (generatedInvite (exApp ∅) ⟨50, 0, UTC⟩ exGenReq true).NoLimit = false) :=
  have hr : Reachable exGenerated :=
    Reachable.step (exApp ∅) _ (Reachable.empty (exApp ∅) rfl rfl)
      (Step.generate (exApp ∅) ⟨50, 0, UTC⟩ exGenReq ["4abc", "xyz"] true
        (Response.success 200 true, exGenerated)
        (by simp [admissible, exGenReq])
        (GenerateInvite_eq (exApp ∅) ⟨50, 0, UTC⟩ exGenReq ["4abc", "xyz"] true "xyz"
          (by decide)))
  have hl : exGenerated.storage.invite_path.lookup "xyz"
      = some (generatedInvite (exApp ∅) ⟨50, 0, UTC⟩ exGenReq true) := by
    simp [exGenerated, storeInvites, setInvite]
  ⟨hr, hl, store_invariant exGenerated hr "xyz" _ (Or.inr hl)⟩

set_option maxRecDepth 100000 in
/-- C11 as stated fails: from the empty store, `GenerateInvite` on a request
whose fields are all non-negative, with `multiple-uses` true, `no-limit` false
and `remaining-uses` 0, answers 200 and stores under the chosen code an invite
with `RemainingUses == 0` and `NoLimit == false`; and `SetProfile` on a code
the store does not hold stores the zero `Invite`, which is that pair too. -/
theorem store_invariant_counterexample :
    (0 ≤ exZeroUsesReq.Days ∧ 0 ≤ exZeroUsesReq.Hours ∧ 0 ≤ exZeroUsesReq.Minutes ∧
      0 ≤ exZeroUsesReq.RemainingUses) ∧
    ((exApp ∅).GenerateInvite ⟨50, 0, UTC⟩ exZeroUsesReq ["xyz"] true).map
        (fun r => (r.1, (r.2.storage.invite_path.lookup "xyz").map
          (fun i => (i.RemainingUses, i.NoLimit))))
      = some (Response.success 200 true, some (0, false)) ∧
    ((exApp ∅).SetProfile ⟨"nope", ""⟩).2.storage.invite_path.lookup "nope"
      = some Invite.zero ∧
    (Invite.zero.RemainingUses, Invite.zero.NoLimit) = (0, false) := by
  decide

/-! ### `SetNotify` -/

set_option maxRecDepth 100000 in
/-- C14 at its failing input. The store holds `abc` with settings for
`a@example.org` and `b@example.org`; the requesting address is
`admin@example.org`, for which nothing is stored, and the request clears
`notify-expiry` for `abc`, which is the value a flag without stored value
counts as. `SetNotify` writes no answer, does not call `storeInvites` and
leaves the persisted collection as it was, but the `Notify` map of `abc` in
memory has gained the address `admin@example.org`; the next `SetProfile`, which
calls `storeInvites` without reloading, persists it.

With the two invites `abc` and `xyz` and a request setting `notify-expiry`
for both, `abc` visited first, the reload made for `xyz` discards what was set
for `abc`: `storeInvites` is called once, only `xyz` has got the setting, and
the same request made again calls `storeInvites` again. -/
theorem SetNotify_adds_address :
    notifyGet (some exTwoAddresses) "admin@example.org" "notify-expiry" = false ∧
    notifyAddresses (exLoaded exStoreExpiry).storage.invites "abc"
      = ["a@example.org", "b@example.org"] ∧
    ((exLoaded exStoreExpiry).SetNotify exClearExpiry "").1 = none ∧
    ((exLoaded exStoreExpiry).SetNotify exClearExpiry "").2.stored = 0 ∧
    notifyAddresses ((exLoaded exStoreExpiry).SetNotify exClearExpiry "").2.storage.invite_path
      "abc" = ["a@example.org", "b@example.org"] ∧
    notifyAddresses ((exLoaded exStoreExpiry).SetNotify exClearExpiry "").2.storage.invites
      "abc" = ["admin@example.org", "a@example.org", "b@example.org"] ∧
    notifyAddresses
      (((exLoaded exStoreExpiry).SetNotify exClearExpiry "").2.SetProfile
        ⟨"abc", ""⟩).2.storage.invite_path
      "abc" = ["admin@example.org", "a@example.org", "b@example.org"] ∧
    exSetBoth.keys = ["abc", "xyz"] ∧
    ((exLoaded exStorePair).SetNotify exSetBoth "").2.stored = 1 ∧
    notifyAddresses ((exLoaded exStorePair).SetNotify exSetBoth "").2.storage.invite_path "abc"
      = [] ∧
    notifyAddresses ((exLoaded exStorePair).SetNotify exSetBoth "").2.storage.invite_path "xyz"
      = ["admin@example.org"] ∧
    (((exLoaded exStorePair).SetNotify exSetBoth "").2.SetNotify exSetBoth "").2.stored
      = 2 := by
  decide

/-! ### `DeleteUser` -/

/-- C17 at its failing input: on a request whose `users` list is empty,
whatever Jellyfin would answer, `DeleteUser` answers 500 "Failed" and then
reads `req.Users[0]` out of range; on a list that is not empty it never
does. -/
theorem DeleteUser_empty_users (app : appContext) (deleteUser : DeleteUserFn)
    (notify : Bool) (reason u : String) (us : List String) :
    app.DeleteUser ⟨[], notify, reason⟩ deleteUser
      = ⟨deleteUserAnswer.failed, true, []⟩ ∧
    (app.DeleteUser ⟨u :: us, notify, reason⟩ deleteUser).panicked = false := by
  refine ⟨rfl, ?_⟩
  unfold DeleteUser
  simp only [List.getElem?_cons_zero]
  split_ifs <;> rfl

end Jfa
